import Mathlib

/-!
Verification of the x-term gating core.

Shallow embedding of the `xgate` package (policy decisions, duration and
time-window parsing, hosts-file reconciliation, process-activity hysteresis)
together with proofs of the specification's claims about it.

Python strings are modelled as `String` / `List Char`, Python floats that
only ever carry clock times, CPU percentages and thresholds as `ℚ`, Python
ints as `ℕ`/`ℤ`, and raised exceptions as `Except`.
-/

namespace Xgate


/-- ASCII approximation of Python's `\s` / `str.strip` whitespace class
(space, tab, newline, carriage return, vertical tab, form feed). -/
def isPySpace (c : Char) : Bool :=
  c == ' ' || c == '\t' || c == '\n' || c == '\r' || c == '\x0b' || c == '\x0c'

/-- Embeds `str.strip()` on a character list: drop whitespace from both ends. -/
def stripChars (cs : List Char) : List Char :=
  ((cs.dropWhile isPySpace).reverse.dropWhile isPySpace).reverse

/-- Embeds `int(...)` of a run of ASCII digits (most significant first). -/
def natOfDigits (ds : List Char) : ℕ :=
  ds.foldl (fun a c => 10 * a + (c.toNat - '0'.toNat)) 0

/-! ## policy.py: time-window parsing and evaluation -/

/-- Parse exactly two ASCII digits (the `(\d{2})` minute group of
`WINDOW_RE`), returning their value and the remaining characters. -/
def parseMM : List Char → Option (ℕ × List Char)
  | c :: d :: rest =>
    if c.isDigit && d.isDigit then some (10 * (c.toNat - '0'.toNat) + (d.toNat - '0'.toNat), rest)
    else none
  | _ => none

/-- Parse an `(\d{1,2}):(\d{2})` time of `WINDOW_RE`: one or two digits of
hour (greedy with backtracking, so two digits are taken exactly when a `:`
follows them), a colon, then exactly two digits of minute. -/
def parseHM : List Char → Option (ℕ × ℕ × List Char)
  | a :: ':' :: rest =>
    if a.isDigit then (parseMM rest).map fun (m, r) => (a.toNat - '0'.toNat, m, r)
    else none
  | a :: b :: ':' :: rest =>
    if a.isDigit && b.isDigit then
      (parseMM rest).map fun (m, r) =>
        (10 * (a.toNat - '0'.toNat) + (b.toNat - '0'.toNat), m, r)
    else none
  | _ => none

/-- Embeds `WINDOW_RE = ^\s*(\d{1,2}):(\d{2})\s*-\s*(\d{1,2}):(\d{2})\s*$` applied
to a window string: the four captured numbers, or `none` when the string
does not match. -/
def windowMatch (s : String) : Option (ℕ × ℕ × ℕ × ℕ) :=
  match parseHM (s.data.dropWhile isPySpace) with
  | none => none
  | some (sh, sm, rest) =>
    match rest.dropWhile isPySpace with
    | '-' :: rest2 =>
      match parseHM (rest2.dropWhile isPySpace) with
      | none => none
      | some (eh, em, rest3) =>
        if (rest3.dropWhile isPySpace).isEmpty then some (sh, sm, eh, em) else none
    | _ => none

/-- Embeds `"%02d"` zero-padded rendering used by `normalize_time_block`. -/
def fmt2 (n : ℕ) : String :=
  if n < 10 then "0" ++ toString n else toString n

/-- Embeds `policy.normalize_time_block` (policy.py:22-31): match `WINDOW_RE`,
range-check hours/minutes, reject equal start and end, and return the
zero-padded `HH:MM-HH:MM` form.  Raised `ValueError`s become `.error`. -/
def normalize_time_block (value : String) : Except String String :=
  match windowMatch value with
  | none => .error "time block must be HH:MM-HH:MM (24h)"
  | some (start_h, start_m, end_h, end_m) =>
    if start_h > 23 || end_h > 23 || start_m > 59 || end_m > 59 then
      .error "invalid time block; hours 00-23 and minutes 00-59"
    else if start_h == end_h && start_m == end_m then
      .error "time block start and end cannot be the same"
    else
      .ok (fmt2 start_h ++ ":" ++ fmt2 start_m ++ "-" ++ fmt2 end_h ++ ":" ++ fmt2 end_m)

/-- Embeds `policy._minutes_of_day` (policy.py:56-57). -/
def _minutes_of_day (hour minute : ℕ) : ℕ := hour * 60 + minute

/-- Embeds `policy.is_time_block_active` (policy.py:60-73), with `now_local`
replaced by its minutes-of-day value `now_minutes`.  The source normalizes
`value` and then re-reads the four numbers by splitting the normalized
`"%02d:%02d-%02d:%02d"` string on `-` and `:`; splitting that fixed format
recovers exactly the numbers `WINDOW_RE` captured, so the validation of
`normalize_time_block` is inlined here and the numbers are taken from the
match directly. -/
def is_time_block_active (value : String) (now_minutes : ℕ) : Except String Bool :=
  match windowMatch value with
  | none => .error "time block must be HH:MM-HH:MM (24h)"
  | some (start_h, start_m, end_h, end_m) =>
    if start_h > 23 || end_h > 23 || start_m > 59 || end_m > 59 then
      .error "invalid time block; hours 00-23 and minutes 00-59"
    else if start_h == end_h && start_m == end_m then
      .error "time block start and end cannot be the same"
    else
      let start_minutes := _minutes_of_day start_h start_m
      let end_minutes := _minutes_of_day end_h end_m
      if start_minutes < end_minutes then
        .ok (decide (start_minutes ≤ now_minutes ∧ now_minutes < end_minutes))
      else
        .ok (decide (now_minutes ≥ start_minutes ∨ now_minutes < end_minutes))

/-! ## policy.py: duration parsing -/

/-- Seconds multiplier of a duration unit (policy.py:48). -/
def unitMult : Char → ℕ
  | 's' => 1
  | 'm' => 60
  | 'h' => 3600
  | 'd' => 86400
  | _ => 0

/-- The error message of policy.py:43 and policy.py:52. -/
def invalidDurationMsg : String := "invalid duration format (example: 3h, 45m, 1h 30m)"

/-- One attempt of `DURATION_TOKEN_RE = (\d+)\s*([smhd])` anchored at the
head of `cs` (the input is already lowercased, so the `IGNORECASE` flag is
inert): a non-empty greedy digit run, optional whitespace, then a unit
letter.  Returns the amount, the unit and the remaining characters.  The
regex admits no other backtracking outcome: shortening the digit run or
the whitespace run can only place a digit or a whitespace character where
the unit letter is required. -/
def tryTokenAt (cs : List Char) : Option (ℕ × Char × List Char) :=
  if (cs.takeWhile Char.isDigit).isEmpty then none
  else
    match (cs.dropWhile Char.isDigit).dropWhile isPySpace with
    | u :: rest =>
      if u == 's' || u == 'm' || u == 'h' || u == 'd' then
        some (natOfDigits (cs.takeWhile Char.isDigit), u, rest)
      else none
    | [] => none

/-- The token-and-gap scan of `policy.parse_duration_seconds`
(policy.py:39-53) on the stripped, lowercased text.  `gapNonWs` records
whether the text between the previous match end (`position`) and the
current scan point contains a non-whitespace character — the condition
under which lines 42-43 raise; `seen` records whether any token has been
matched (`position == 0` at line 51 means none was).  Scanning advances
one character at a time exactly as `finditer` retries the anchored match
at each position.  The `fuel` argument only bounds the recursion for
Lean: every step consumes at least one character, so the
`cs.length + 1` supplied by `durLoop` can never be exhausted and the
fuel-0 branch is unreachable. -/
def durLoopF (fuel : ℕ) (cs : List Char) (gapNonWs : Bool) (total : ℕ) (seen : Bool) :
    Except String ℕ :=
  match fuel with
  | 0 => .error invalidDurationMsg
  | fuel + 1 =>
    match tryTokenAt cs with
    | some (amount, u, rest) =>
      if gapNonWs then .error invalidDurationMsg
      else if amount == 0 then .error "duration units must be positive"
      else durLoopF fuel rest false (total + amount * unitMult u) true
    | none =>
      match cs with
      | [] => if !seen || gapNonWs then .error invalidDurationMsg else .ok total
      | c :: rest => durLoopF fuel rest (gapNonWs || !isPySpace c) total seen

/-- The `finditer` scan of policy.py:39-53 with sufficient fuel. -/
def durLoop (cs : List Char) (gapNonWs : Bool) (total : ℕ) (seen : Bool) : Except String ℕ :=
  durLoopF (cs.length + 1) cs gapNonWs total seen

/-- Embeds `policy.parse_duration_seconds` (policy.py:34-53): strip and lowercase
the input, reject the empty string, then scan `DURATION_TOKEN_RE` tokens
accumulating `amount * unit_seconds`. -/
def parse_duration_seconds (value : String) : Except String ℕ :=
  let text := (stripChars value.data).map Char.toLower
  if text.isEmpty then .error "duration must be non-empty (example: 3h)"
  else durLoop text false 0 false

/-- Modelled from the claim's words (C4, amended): after stripping and
lowercasing, the input must be one or more tokens — a positive integer,
optional whitespace, a unit letter — separated by optional whitespace,
with nothing else; the value is the sum of `amount * unit_seconds`.  This
definition follows the claim text, for comparison with
`parse_duration_seconds`.  The fuel-0 branch is unreachable for the
`cs.length + 1` fuel supplied by `spec_tokens`. -/
def spec_tokensF (fuel : ℕ) (cs : List Char) : Option ℕ :=
  match fuel with
  | 0 => none
  | fuel + 1 =>
    match tryTokenAt (cs.dropWhile isPySpace) with
    | none => none
    | some (amount, u, rest) =>
      if amount == 0 then none
      else if (rest.dropWhile isPySpace).isEmpty then some (amount * unitMult u)
      else
        match spec_tokensF fuel (rest.dropWhile isPySpace) with
        | none => none
        | some m => some (amount * unitMult u + m)

/-- The amended claim's grammar (C4) with sufficient fuel. -/
def spec_tokens (cs : List Char) : Option ℕ :=
  spec_tokensF (cs.length + 1) cs

/-- Modelled from the claim's words (C4, as stated): a token is a positive
integer immediately followed by a unit letter, whitespace may appear only
between tokens, and nothing else may appear anywhere in the string. -/
def claimed_token (cs : List Char) : Option (ℕ × Char × List Char) :=
  if (cs.takeWhile Char.isDigit).isEmpty then none
  else
    match cs.dropWhile Char.isDigit with
    | u :: rest =>
      if u == 's' || u == 'm' || u == 'h' || u == 'd' then
        some (natOfDigits (cs.takeWhile Char.isDigit), u, rest)
      else none
    | [] => none

/-- The acceptance set of the claim as stated (C4): one or more
immediately-joined `<positive integer><unit>` tokens, optional whitespace
strictly between tokens and nothing else anywhere (in particular no
leading or trailing whitespace and none inside a token).  The fuel-0
branch is unreachable for the `cs.length + 1` fuel supplied by
`claimed_go`. -/
def claimed_goF (fuel : ℕ) (cs : List Char) : Option ℕ :=
  match fuel with
  | 0 => none
  | fuel + 1 =>
    match claimed_token cs with
    | none => none
    | some (amount, u, rest) =>
      if amount == 0 then none
      else if rest.isEmpty then some (amount * unitMult u)
      else if (rest.dropWhile isPySpace).isEmpty then none
      else
        match claimed_goF fuel (rest.dropWhile isPySpace) with
        | none => none
        | some m => some (amount * unitMult u + m)

/-- The claim's grammar (C4, as stated) with sufficient fuel. -/
def claimed_go (cs : List Char) : Option ℕ :=
  claimed_goF (cs.length + 1) cs

/-- The claim's grammar (C4) applied to a whole string, case-insensitively. -/
def claimed_duration (s : String) : Option ℕ :=
  claimed_go (s.data.map Char.toLower)

/-- The amended claim's grammar (C4) applied to a whole string: strip,
lowercase, then parse the token sequence. -/
def spec_duration (s : String) : Option ℕ :=
  spec_tokens ((stripChars s.data).map Char.toLower)

/-- Continuation grammar after at least one token: end of input modulo
whitespace (contributing 0) or further tokens. -/
def specRest (cs : List Char) : Option ℕ :=
  if (cs.dropWhile isPySpace).isEmpty then some 0 else spec_tokens cs

/-! ## hosts.py: managed-block reconciliation

Text is modelled as `List Char`; `str.splitlines` is modelled for `"\n"`
line boundaries (the hosts file is plain LF-separated text; the further
Unicode line boundaries Python recognises are not modelled). -/

/-- Embeds `hosts.MANAGED_START` (hosts.py:8). -/
def MANAGED_START : List Char := "# xgate:start".data

/-- Embeds `hosts.MANAGED_END` (hosts.py:9). -/
def MANAGED_END : List Char := "# xgate:end".data

/-- Embeds `str.splitlines()` for LF-separated text: the segments between `\n`
characters, with a final empty segment (after a trailing newline)
omitted. -/
def splitlinesL : List Char → List (List Char)
  | [] => []
  | c :: cs =>
    if c == '\n' then [] :: splitlinesL cs
    else
      match splitlinesL cs with
      | [] => [[c]]
      | l :: ls => (c :: l) :: ls

/-- Embeds `"\n".join(lines)` (hosts.py:89). -/
def joinNl : List (List Char) → List Char
  | [] => []
  | [l] => l
  | l :: ls => l ++ '\n' :: joinNl ls

/-- The two sinkhole entry lines per domain, in order (the loop of
hosts.py:50-52). -/
def domainEntries (domains : List (List Char)) : List (List Char) :=
  domains.foldr (fun d acc => ("0.0.0.0 ".data ++ d) :: ("::1 ".data ++ d) :: acc) []

/-- Embeds `hosts.render_block_section` (hosts.py:48-54): the start marker, two
entries (`0.0.0.0` and `::1`) per domain in order, then the end marker. -/
def render_block_section (domains : List (List Char)) : List (List Char) :=
  (MANAGED_START :: domainEntries domains) ++ [MANAGED_END]

/-- The loop of `hosts._strip_managed` (hosts.py:57-70) with its `in_block`
state: marker lines (compared after `strip()`) are always dropped and
toggle the state, and other lines are kept exactly when outside a block. -/
def stripManagedGo : Bool → List (List Char) → List (List Char)
  | _, [] => []
  | in_block, l :: rest =>
    if stripChars l == MANAGED_START then stripManagedGo true rest
    else if stripChars l == MANAGED_END then stripManagedGo false rest
    else if in_block then stripManagedGo in_block rest
    else l :: stripManagedGo in_block rest

/-- Embeds `hosts._strip_managed` (hosts.py:57-70). -/
def _strip_managed (lines : List (List Char)) : List (List Char) :=
  stripManagedGo false lines

/-- The separator condition `cleaned and cleaned[-1].strip()` of
hosts.py:84. -/
def needsSep (cleaned : List (List Char)) : Bool :=
  match cleaned.getLast? with
  | none => false
  | some l => !(stripChars l).isEmpty

/-- Lines 83-86 of hosts.py: when blocking with a non-empty domain list,
append a blank separator (if the last remaining line is non-blank) and the
rendered block. -/
def rebuildLines (cleaned : List (List Char)) (domains : List (List Char)) (should_block : Bool) :
    List (List Char) :=
  if should_block && !domains.isEmpty then
    (if needsSep cleaned then cleaned ++ [[]] else cleaned) ++ render_block_section domains
  else cleaned

/-- Line 88 of hosts.py: `"\n" if original.endswith("\n") or not original
else ""` (a list ends with `'\n'` iff its last element is `'\n'`). -/
def newlineOf (original : List Char) : List Char :=
  if original.getLast? == some '\n' || original.isEmpty then ['\n'] else []

/-- Embeds `hosts.apply_hosts` (hosts.py:73-97) with the file system abstracted
away: the input is the file's current content, the result is the `changed`
flag and the content after the call (the atomic temp-file rename is not
modelled; on `new_text == original` the file is untouched). -/
def apply_hosts (original : List Char) (domains : List (List Char)) (should_block : Bool) :
    Bool × List Char :=
  let new_text :=
    joinNl (rebuildLines (_strip_managed (splitlinesL original)) domains should_block) ++
      newlineOf original
  if new_text == original then (false, original) else (true, new_text)

/-- No line of `lines` is (after stripping) either managed marker. -/
def marker_free (lines : List (List Char)) : Prop :=
  ∀ l ∈ lines, stripChars l ≠ MANAGED_START ∧ stripChars l ≠ MANAGED_END

instance marker_free_dec (lines : List (List Char)) : Decidable (marker_free lines) :=
  inferInstanceAs
    (Decidable (∀ l ∈ lines, stripChars l ≠ MANAGED_START ∧ stripChars l ≠ MANAGED_END))

/-! ## policy.py: configuration and the block decision -/

/-- Embeds `config.ProcessConfig` (config.py:9-19). -/
structure ProcessConfig where
  watch_regex : String
  require_tty : Bool
  app_watch_regex : String
  app_require_tty : Bool
  active_grace_seconds : ℚ
  cpu_active_threshold_percent : ℚ
  net_active_threshold_bytes : ℤ
  enable_nettop : Bool
  consider_children_active : Bool
deriving DecidableEq, Repr

/-- Embeds `config.GateConfig` (config.py:22-29).  These six fields are the
complete field list of the frozen dataclass; in particular it declares
neither `block_until_unix` nor `time_blocks`. -/
structure GateConfig where
  enabled : Bool
  reward_mode : Bool
  poll_interval_seconds : ℚ
  blocklist : List String
  include_www : Bool
  process : ProcessConfig
deriving DecidableEq, Repr

/-- Embeds `config.DEFAULT_PROCESS_CONFIG` (config.py:32-42). -/
def DEFAULT_PROCESS_CONFIG : ProcessConfig where
  watch_regex := "(?i)\\b(codex|claude(?:-code)?|claude_code)\\b"
  require_tty := true
  app_watch_regex := "(?i)\\bcodex app-server\\b"
  app_require_tty := false
  active_grace_seconds := 15
  cpu_active_threshold_percent := 1
  net_active_threshold_bytes := 1
  enable_nettop := true
  consider_children_active := true

/-- Embeds `config.DEFAULT_CONFIG` (config.py:45-52). -/
def DEFAULT_CONFIG : GateConfig where
  enabled := true
  reward_mode := true
  poll_interval_seconds := 1
  blocklist := ["x.com", "twitter.com"]
  include_www := true
  process := DEFAULT_PROCESS_CONFIG

/-- Embeds `policy.BlockDecision` (policy.py:13-19). -/
structure BlockDecision where
  should_block : Bool
  reasons : List String
  activity_block_active : Bool
  time_block_active : Bool
  timer_block_active : Bool
deriving DecidableEq, Repr

/-- The attributes `policy.block_decision` actually reads from its `config`
argument.  Python resolves them dynamically, so `block_decision` as a
function is defined for any object carrying these four attributes; the
`GateConfig` dataclass of config.py supplies only the first two (see
`block_decision_gate`). -/
structure GateConfigAttrs where
  enabled : Bool
  reward_mode : Bool
  block_until_unix : ℚ
  time_blocks : List String
deriving DecidableEq, Repr

/-- Embeds `policy._activity_blocks` (policy.py:76-79). -/
def _activity_blocks (config : GateConfigAttrs) (process_active : Bool) : Bool :=
  if config.reward_mode then !process_active else process_active

/-- Embeds `any(is_time_block_active(block) for block in blocks)` (policy.py:101):
Python's `any` over a generator evaluates elements left to right, stops at
the first `True`, and propagates a raised `ValueError`. -/
def anyTimeBlockActive (blocks : List String) (local_minutes : ℕ) : Except String Bool :=
  match blocks with
  | [] => .ok false
  | b :: rest =>
    match is_time_block_active b local_minutes with
    | .error e => .error e
    | .ok true => .ok true
    | .ok false => anyTimeBlockActive rest local_minutes

/-- Embeds `policy.block_decision` (policy.py:82-117) over the attribute bundle it
duck-typedly reads.  `now_unix = none` models the `None` default, in which
case `ts` is the ambient wall clock `wall_unix`; the time-window check at
line 101 calls `is_time_block_active` without `now_local`, so it always
uses the ambient local time, modelled as `wall_local_minutes` (minutes
since local midnight). -/
def block_decision (config : GateConfigAttrs) (process_active : Bool)
    (now_unix : Option ℚ) (wall_unix : ℚ) (wall_local_minutes : ℕ) :
    Except String BlockDecision :=
  if !config.enabled then
    .ok { should_block := false, reasons := [], activity_block_active := false,
          time_block_active := false, timer_block_active := false }
  else
    let ts := now_unix.getD wall_unix
    let activity_block_active := _activity_blocks config process_active
    let timer_block_active := decide (config.block_until_unix > ts)
    match anyTimeBlockActive config.time_blocks wall_local_minutes with
    | .error e => .error e
    | .ok time_block_active =>
      let reasons :=
        (if timer_block_active then ["timer"] else []) ++
        (if time_block_active then ["time_block"] else []) ++
        (if activity_block_active then ["activity"] else [])
      .ok { should_block := !reasons.isEmpty, reasons := reasons,
            activity_block_active := activity_block_active,
            time_block_active := time_block_active,
            timer_block_active := timer_block_active }

/-- Exceptions raised by attribute access and validation. -/
inductive PyErr where
  | attributeError (name : String)
  | valueError (msg : String)
deriving DecidableEq, Repr

/-- Embeds `policy.block_decision` applied to an actual `config.GateConfig`
instance, the only call shape in the repository (daemon.py, cli.py,
tests).  The disabled branch (policy.py:88-95) returns before any extended
attribute is read; otherwise line 100 evaluates `config.block_until_unix`,
and since the frozen dataclass `GateConfig` (config.py:22-29) declares no
such field, the lookup raises `AttributeError`. -/
def block_decision_gate (config : GateConfig) (process_active : Bool)
    (now_unix : Option ℚ) : Except PyErr BlockDecision :=
  if !config.enabled then
    .ok { should_block := false, reasons := [], activity_block_active := false,
          time_block_active := false, timer_block_active := false }
  else
    .error (.attributeError "block_until_unix")

/-! ## process_gate.py: process scanning and activity hysteresis -/

/-- Embeds `process_gate.ProcessInfo` (process_gate.py:43-49). -/
structure ProcessInfo where
  pid : String
  ppid : String
  tty : String
  cpu_percent : ℚ
  cmd : String
deriving DecidableEq, Repr

/-- Embeds `process_gate._has_tty` (process_gate.py:52-53): not a known sentinel
and not containing the placeholder character (`"?" in tty` is
single-character containment, tested on the character list). -/
def _has_tty (tty : String) : Bool :=
  !(tty == "?" || tty == "??") && !(tty.data.contains (Char.ofNat 63))

/-- Embeds `process_gate._matching_processes` (process_gate.py:80-88); the
compiled `re.compile(config.watch_regex).search` test is abstracted as the
predicate `watch`. -/
def _matching_processes (processes : List ProcessInfo) (config : ProcessConfig)
    (watch : String → Bool) : List ProcessInfo :=
  processes.filter fun proc => (!config.require_tty || _has_tty proc.tty) && watch proc.cmd

/-- Embeds `children.setdefault(proc.ppid, []).append(proc)` on an
insertion-ordered association list (process_gate.py:94). -/
def addChild (m : List (String × List ProcessInfo)) (proc : ProcessInfo) :
    List (String × List ProcessInfo) :=
  match m with
  | [] => [(proc.ppid, [proc])]
  | (k, v) :: rest =>
    if k == proc.ppid then (k, v ++ [proc]) :: rest else (k, v) :: addChild rest proc

/-- Embeds `process_gate._build_children_map` (process_gate.py:91-95). -/
def _build_children_map (processes : List ProcessInfo) : List (String × List ProcessInfo) :=
  processes.foldl addChild []

/-- Embeds `children_map.get(pid, [])`. -/
def cmGet (m : List (String × List ProcessInfo)) (pid : String) : List ProcessInfo :=
  match m with
  | [] => []
  | (k, v) :: rest => if k == pid then v else cmGet rest pid

/-- Embeds `process_gate._descendants_of` (process_gate.py:98-109): stack-based
walk with a seen-set; `stack.pop()` takes from the end of the list and
`stack.extend` appends.  The `fuel` argument only bounds the loop for
Lean: each iteration pops one entry and entries are pushed only when a pid
is newly marked seen, so the bound supplied by `childHit` (one more than
twice the total number of mapped children) is never exhausted. -/
def descendantsGo (children : List (String × List ProcessInfo)) :
    ℕ → List ProcessInfo → List String → List ProcessInfo
  | 0, _, _ => []
  | fuel + 1, stack, seen =>
    match stack.getLast? with
    | none => []
    | some proc =>
      if proc.pid ∈ seen then descendantsGo children fuel stack.dropLast seen
      else
        proc ::
          descendantsGo children fuel (stack.dropLast ++ cmGet children proc.pid)
            (proc.pid :: seen)

/-- Embeds `process_gate._descendants_of` (process_gate.py:98-109). -/
def _descendants_of (pid : String) (children : List (String × List ProcessInfo))
    (fuel : ℕ) : List ProcessInfo :=
  descendantsGo children fuel (cmGet children pid) []

/-- Total number of children recorded in the map, used to bound the
descendant walk. -/
def childrenSize (children : List (String × List ProcessInfo)) : ℕ :=
  (children.map fun e => e.2.length).sum

/-- The inner loop of the `child_cpu` branch (process_gate.py:180-193) for
one matched process: some descendant that is not itself in the match set,
does not match the watch pattern, shares the terminal (when both are
non-empty), and meets the CPU threshold.  The `break` on first hit makes
the loop an existence check. -/
def childHit (config : ProcessConfig) (watch : String → Bool)
    (children : List (String × List ProcessInfo)) (match_pids : List String)
    (proc : ProcessInfo) : Bool :=
  (_descendants_of proc.pid children (2 * childrenSize children + 1)).any fun child =>
    !(match_pids.contains child.pid) && !(watch child.cmd) &&
      !(!proc.tty.isEmpty && !child.tty.isEmpty && proc.tty != child.tty) &&
      decide (child.cpu_percent ≥ config.cpu_active_threshold_percent)

/-- Embeds `prev_net_totals[pid] = cur`: update in place or append. -/
def netUpdate (prev : List (String × ℤ × ℤ)) (pid : String) (cur : ℤ × ℤ) :
    List (String × ℤ × ℤ) :=
  match prev with
  | [] => [(pid, cur)]
  | (k, v) :: rest => if k == pid then (k, cur) :: rest else (k, v) :: netUpdate rest pid cur

/-- The `net` sampling loop (process_gate.py:204-216): for each matched
pid in order, record the current totals (when sampled), and report a hit
when a previous sample exists and the byte delta meets the threshold; the
`break` stops both the scan and further recording. -/
def netScan (threshold : ℤ) (totals : String → Option (ℤ × ℤ)) :
    List String → List (String × ℤ × ℤ) → Bool × List (String × ℤ × ℤ)
  | [], prev => (false, prev)
  | pid :: rest, prev =>
    match totals pid with
    | none => netScan threshold totals rest prev
    | some cur =>
      match prev.lookup pid with
      | none => netScan threshold totals rest (netUpdate prev pid cur)
      | some p =>
        if max 0 ((cur.1 + cur.2) - (p.1 + p.2)) ≥ threshold then
          (true, netUpdate prev pid cur)
        else netScan threshold totals rest (netUpdate prev pid cur)

/-- The evidence list assembled by the appends of process_gate.py:169,
190 and 215 (at most one of the three is true, because each later branch
is gated on `not active_now`). -/
def evidenceList (cpu child net : Bool) : List String :=
  (if cpu then ["cpu"] else []) ++ (if child then ["child_cpu"] else []) ++
    (if net then ["net"] else [])

/-- The hysteresis tail of `_process_active` (process_gate.py:218-227):
fresh evidence advances `last_active_at` and reports active; otherwise a
non-zero `last_active_at` within the grace window reports active with
`grace` appended, and anything else reports inactive. -/
def activityResult (active_now : Bool) (evidence : List String) (now last grace : ℚ) :
    Bool × ℚ × List String :=
  if active_now then (true, now, evidence)
  else if last ≠ 0 ∧ now - last ≤ grace then (true, last, evidence ++ ["grace"])
  else (false, last, evidence)

/-- Embeds `process_gate._process_active` (process_gate.py:150-236).  The
compiled watch regex is the predicate `watch`, `platformSystem` stands for
`platform.system()`, and `netTotals` for the outcome of the
`_nettop_totals_for_pids` subprocess sample.  Returns `(active, new
last_active_at, evidence, updated prev_net_totals)`; the debug dict's
other entries are configuration echoes and are not modelled. -/
def _process_active (config : ProcessConfig) (watch : String → Bool)
    (platformSystem : String) (netTotals : String → Option (ℤ × ℤ)) (now : ℚ)
    (matchSet : List ProcessInfo) (children : List (String × List ProcessInfo))
    (prev_net_totals : List (String × ℤ × ℤ)) (last_active_at : ℚ) :
    Bool × ℚ × List String × List (String × ℤ × ℤ) :=
  if matchSet.isEmpty then (false, 0, [], prev_net_totals)
  else
    let cpuHit := decide (config.cpu_active_threshold_percent > 0) &&
      matchSet.any fun proc => decide (proc.cpu_percent ≥ config.cpu_active_threshold_percent)
    let childHitB := !cpuHit && config.consider_children_active &&
      decide (config.cpu_active_threshold_percent > 0) && !children.isEmpty &&
      matchSet.any (childHit config watch children (matchSet.map fun p => p.pid))
    let ns :=
      if !cpuHit && !childHitB && config.enable_nettop && platformSystem == "Darwin" &&
          decide (config.net_active_threshold_bytes > 0) then
        netScan config.net_active_threshold_bytes netTotals (matchSet.map fun p => p.pid)
          prev_net_totals
      else (false, prev_net_totals)
    let r := activityResult (cpuHit || childHitB || ns.1)
      (evidenceList cpuHit childHitB ns.1) now last_active_at config.active_grace_seconds
    (r.1, r.2.1, r.2.2, ns.2)

/-- The mutable fields of a `ProcessGate` instance (process_gate.py:240-243). -/
structure GateState where
  last_active_at : ℚ
  prev_net_totals : List (String × ℤ × ℤ)
deriving DecidableEq, Repr

/-- Embeds `ProcessGate.poll` (process_gate.py:245-277).  `scanResult` models the
outcome of `_list_processes_macos_linux()` (the `ps` subprocess): a
process list on success, `.error` when the call raised, in which case the
`except` branch logs and recovers; `fallbackRunning` models the
PowerShell fallback used on other platforms. -/
def poll (config : ProcessConfig) (watch : String → Bool) (platformSystem : String)
    (scanResult : Except String (List ProcessInfo)) (fallbackRunning : Bool)
    (netTotals : String → Option (ℤ × ℤ)) (now : ℚ) (st : GateState) :
    (Bool × Bool × List String) × GateState :=
  if !(platformSystem == "Darwin" || platformSystem == "Linux") then
    ((fallbackRunning, fallbackRunning, ["fallback"]), st)
  else
    match scanResult with
    | .error _ => ((false, false, ["ps_error"]), st)
    | .ok processes =>
      let matchSet := _matching_processes processes config watch
      if matchSet.isEmpty then ((false, false, []), ⟨0, []⟩)
      else
        let prevFiltered := st.prev_net_totals.filter fun e =>
          (matchSet.map fun p => p.pid).contains e.1
        let r := _process_active config watch platformSystem netTotals now matchSet
          (_build_children_map processes) prevFiltered st.last_active_at
        ((true, r.1, r.2.2.1), ⟨r.2.1, r.2.2.2⟩)

/-- Fresh activity evidence: any of the three positive signals. -/
def freshEvidence (ev : List String) : Prop :=
  "cpu" ∈ ev ∨ "child_cpu" ∈ ev ∨ "net" ∈ ev

instance freshEvidence_dec (ev : List String) : Decidable (freshEvidence ev) :=
  inferInstanceAs (Decidable (_ ∨ _ ∨ _))

/-- The configuration of the grace-window example: a matched process with
no fresh evidence possible. -/
def graceExampleConfig : ProcessConfig :=
  { DEFAULT_PROCESS_CONFIG with
      cpu_active_threshold_percent := 999
      consider_children_active := false
      enable_nettop := false
      active_grace_seconds := 4 }

/-- The matched process of the grace-window example. -/
def graceExampleProc : ProcessInfo :=
  { pid := "100", ppid := "1", tty := "ttys001", cpu_percent := 0, cmd := "codex" }

/-! ## Theorems -/

theorem length_dropWhile_le {α : Type} (p : α → Bool) (l : List α) :
    (l.dropWhile p).length ≤ l.length := by
  induction l with
  | nil => simp
  | cons a l ih =>
    rw [List.dropWhile_cons]
    by_cases h : p a
    · simp only [h, if_true]
      exact Nat.le_succ_of_le ih
    · simp [h]

theorem tryTokenAt_length_lt {cs : List Char} {a : ℕ} {u : Char} {rest : List Char}
    (h : tryTokenAt cs = some (a, u, rest)) : rest.length < cs.length := by
  unfold tryTokenAt at h
  split at h
  · simp at h
  · split at h
    next u' rest' heq =>
      split at h
      · cases h
        have h1 : ((cs.dropWhile Char.isDigit).dropWhile isPySpace).length = rest.length + 1 := by
          rw [heq]; rfl
        have h2 := length_dropWhile_le isPySpace (cs.dropWhile Char.isDigit)
        have h3 := length_dropWhile_le Char.isDigit cs
        omega
      · simp at h
    next heq => simp at h

theorem isPySpace_not_digit {c : Char} (h : isPySpace c = true) : c.isDigit = false := by
  simp only [isPySpace, Bool.or_eq_true, beq_iff_eq] at h
  rcases h with ((((h | h) | h) | h) | h) | h <;> subst h <;> rfl

theorem tryTokenAt_ws_cons {c : Char} (h : isPySpace c = true) (cs : List Char) :
    tryTokenAt (c :: cs) = none := by
  unfold tryTokenAt
  rw [List.takeWhile_cons_of_neg (by simp [isPySpace_not_digit h])]
  rfl

theorem dropWhile_idem {α : Type} (p : α → Bool) (l : List α) :
    (l.dropWhile p).dropWhile p = l.dropWhile p := by
  induction l with
  | nil => rfl
  | cons a l ih =>
    rw [List.dropWhile_cons]
    by_cases h : p a
    · simpa [h] using ih
    · simp [List.dropWhile_cons, h]

/-- One-step unfolding of `durLoopF` (definitional). -/
theorem durLoopF_succ (f : ℕ) (cs : List Char) (g : Bool) (t : ℕ) (s : Bool) :
    durLoopF (f + 1) cs g t s =
      match tryTokenAt cs with
      | some (amount, u, rest) =>
        if g then .error invalidDurationMsg
        else if amount == 0 then .error "duration units must be positive"
        else durLoopF f rest false (t + amount * unitMult u) true
      | none =>
        match cs with
        | [] => if !s || g then .error invalidDurationMsg else .ok t
        | c :: rest => durLoopF f rest (g || !isPySpace c) t s := rfl

/-- One-step unfolding of `spec_tokensF` (definitional). -/
theorem spec_tokensF_succ (f : ℕ) (cs : List Char) :
    spec_tokensF (f + 1) cs =
      match tryTokenAt (cs.dropWhile isPySpace) with
      | none => none
      | some (amount, u, rest) =>
        if amount == 0 then none
        else if (rest.dropWhile isPySpace).isEmpty then some (amount * unitMult u)
        else
          match spec_tokensF f (rest.dropWhile isPySpace) with
          | none => none
          | some m => some (amount * unitMult u + m) := rfl

theorem durLoopF_stab {f1 f2 : ℕ} {cs : List Char} {g : Bool} {t : ℕ} {s : Bool}
    (h1 : cs.length < f1) (h2 : cs.length < f2) :
    durLoopF f1 cs g t s = durLoopF f2 cs g t s := by
  induction f1 generalizing f2 cs g t s with
  | zero => omega
  | succ f ih =>
    cases f2 with
    | zero => omega
    | succ f2' =>
      rw [durLoopF_succ f, durLoopF_succ f2']
      cases htok : tryTokenAt cs with
      | some v =>
        obtain ⟨a, u, rest⟩ := v
        have hlt := tryTokenAt_length_lt htok
        simp only [htok]
        by_cases hg : g
        · simp [hg]
        · by_cases ha : (a == 0) = true
          · simp [hg, ha]
          · simp only [hg, ha, if_false, Bool.false_eq_true]
            exact ih (by omega) (by omega)
      | none =>
        simp only [htok]
        cases cs with
        | nil => rfl
        | cons c rest =>
          simp only [List.length_cons] at h1 h2
          exact ih (by omega) (by omega)

theorem durLoopF_gapTrue {f : ℕ} {cs : List Char} {t : ℕ} {s : Bool}
    (h : cs.length < f) :
    durLoopF f cs true t s = .error invalidDurationMsg := by
  induction f generalizing cs t s with
  | zero => omega
  | succ f ih =>
    rw [durLoopF_succ]
    cases htok : tryTokenAt cs with
    | some v => obtain ⟨a, u, rest⟩ := v; simp [htok]
    | none =>
      simp only [htok]
      cases cs with
      | nil => simp
      | cons c rest =>
        simp only [List.length_cons] at h
        simpa using ih (by omega)

theorem spec_tokensF_stab {f1 f2 : ℕ} {cs : List Char}
    (h1 : cs.length < f1) (h2 : cs.length < f2) :
    spec_tokensF f1 cs = spec_tokensF f2 cs := by
  induction f1 generalizing f2 cs with
  | zero => omega
  | succ f ih =>
    cases f2 with
    | zero => omega
    | succ f2' =>
      rw [spec_tokensF_succ f, spec_tokensF_succ f2']
      cases htok : tryTokenAt (cs.dropWhile isPySpace) with
      | none => simp [htok]
      | some v =>
        obtain ⟨a, u, rest⟩ := v
        have hlt := tryTokenAt_length_lt htok
        have hcs := length_dropWhile_le isPySpace cs
        have hrest := length_dropWhile_le isPySpace rest
        simp only [htok]
        by_cases ha : (a == 0) = true
        · simp [ha]
        · by_cases he : (rest.dropWhile isPySpace).isEmpty
          · simp [ha, he]
          · simp only [ha, he, if_false, Bool.false_eq_true]
            rw [@ih f2' (rest.dropWhile isPySpace) (by omega) (by omega)]

theorem spec_tokens_fuel {f : ℕ} {cs : List Char} (h : cs.length < f) :
    spec_tokensF f cs = spec_tokens cs :=
  spec_tokensF_stab h (Nat.lt_succ_self _)

theorem spec_tokens_dropWhile (cs : List Char) :
    spec_tokens (cs.dropWhile isPySpace) = spec_tokens cs := by
  unfold spec_tokens
  rw [spec_tokensF_succ, spec_tokensF_succ, dropWhile_idem]
  cases htok : tryTokenAt (cs.dropWhile isPySpace) with
  | none => simp [htok]
  | some v =>
    obtain ⟨a, u, rest⟩ := v
    have hlt := tryTokenAt_length_lt htok
    have hcs := length_dropWhile_le isPySpace cs
    have hrest := length_dropWhile_le isPySpace rest
    simp only [htok]
    by_cases ha : (a == 0) = true
    · simp [ha]
    · by_cases he : (rest.dropWhile isPySpace).isEmpty
      · simp [ha, he]
      · simp only [ha, he, if_false, Bool.false_eq_true]
        rw [@spec_tokensF_stab ((cs.dropWhile isPySpace).length) cs.length
          (rest.dropWhile isPySpace) (by omega) (by omega)]

theorem tryTokenAt_head_digit {cs : List Char} {v : ℕ × Char × List Char}
    (h : tryTokenAt cs = some v) :
    ∃ c cs', cs = c :: cs' ∧ c.isDigit = true := by
  unfold tryTokenAt at h
  split at h
  · simp at h
  · next hne =>
    cases cs with
    | nil => simp at hne
    | cons c cs' =>
      refine ⟨c, cs', rfl, ?_⟩
      by_contra hc
      rw [List.takeWhile_cons_of_neg (by simpa using hc)] at hne
      simp at hne

theorem digit_not_pySpace {c : Char} (h : c.isDigit = true) : isPySpace c = false := by
  by_contra hc
  simp only [Bool.not_eq_false] at hc
  rw [isPySpace_not_digit hc] at h
  cases h

/-- The gap-based `finditer` scan and the token-sequence grammar agree. -/
theorem durLoopF_spec {f : ℕ} {cs : List Char} {t : ℕ} {seen : Bool} {n : ℕ}
    (h : cs.length < f) :
    durLoopF f cs false t seen = .ok n ↔
      ∃ m, (if seen then specRest cs else spec_tokens cs) = some m ∧ n = t + m := by
  induction f generalizing cs t seen n with
  | zero => omega
  | succ f ih =>
    rw [durLoopF_succ]
    cases htok : tryTokenAt cs with
    | some v =>
      obtain ⟨a, u, rest⟩ := v
      have hlt := tryTokenAt_length_lt htok
      obtain ⟨c, cs', hcons, hdig⟩ := tryTokenAt_head_digit htok
      have hdrop : cs.dropWhile isPySpace = cs := by
        rw [hcons]
        exact List.dropWhile_cons_of_neg (by simp [digit_not_pySpace hdig])
      have hne : (cs.dropWhile isPySpace).isEmpty = false := by
        rw [hdrop, hcons]; rfl
      have hsel : (if seen then specRest cs else spec_tokens cs) = spec_tokens cs := by
        cases seen
        · rfl
        · simp [specRest, hne]
      rw [hsel]
      simp only [htok, Bool.false_eq_true, if_false]
      by_cases ha : (a == 0) = true
      · have hnone : spec_tokens cs = none := by
          unfold spec_tokens
          rw [spec_tokensF_succ, hdrop, htok]
          simp [ha]
        simp [ha, hnone]
      · simp only [ha, if_false, Bool.false_eq_true]
        rw [ih (by omega)]
        have hrec : spec_tokens cs =
            (if (rest.dropWhile isPySpace).isEmpty then some (a * unitMult u)
             else
               match spec_tokens rest with
               | none => none
               | some m => some (a * unitMult u + m)) := by
          unfold spec_tokens
          rw [spec_tokensF_succ, hdrop, htok]
          simp only [ha, if_false, Bool.false_eq_true]
          by_cases hre : (rest.dropWhile isPySpace).isEmpty
          · simp [hre]
          · simp only [hre, if_false, Bool.false_eq_true]
            have hfl : (rest.dropWhile isPySpace).length < cs.length := by
              have := length_dropWhile_le isPySpace rest
              omega
            rw [spec_tokens_fuel hfl, spec_tokens_dropWhile]
            rfl
        simp only [if_true]
        by_cases hre : (rest.dropWhile isPySpace).isEmpty
        · rw [hrec]
          simp only [hre, if_true, specRest]
          constructor
          · rintro ⟨m, hm, rfl⟩
            cases hm
            exact ⟨a * unitMult u, rfl, by omega⟩
          · rintro ⟨m, hm, rfl⟩
            cases hm
            exact ⟨0, rfl, by omega⟩
        · rw [hrec]
          simp only [hre, if_false, Bool.false_eq_true, specRest]
          cases hsr : spec_tokens rest with
          | none => simp
          | some m =>
            constructor
            · rintro ⟨m', hm', rfl⟩
              cases hm'
              exact ⟨a * unitMult u + m, rfl, by omega⟩
            · rintro ⟨m', hm', rfl⟩
              cases hm'
              exact ⟨m, rfl, by omega⟩
    | none =>
      simp only [htok]
      cases cs with
      | nil =>
        have hnil : spec_tokens ([] : List Char) = none := rfl
        cases seen with
        | false => simp [hnil]
        | true =>
          simp only [Bool.not_true, Bool.or_false, Bool.false_eq_true, if_false,
            specRest, List.dropWhile_nil, List.isEmpty_nil, if_true]
          constructor
          · intro hok
            cases hok
            exact ⟨0, rfl, by omega⟩
          · rintro ⟨m, hm, rfl⟩
            cases hm
            simp
      | cons c rest =>
        simp only [List.length_cons] at h
        dsimp only
        by_cases hws : isPySpace c = true
        · have hb : (false || !isPySpace c) = false := by simp [hws]
          rw [hb, ih (by omega)]
          have h1 : (c :: rest).dropWhile isPySpace = rest.dropWhile isPySpace :=
            List.dropWhile_cons_of_pos hws
          have h2 : spec_tokens (c :: rest) = spec_tokens rest := by
            rw [← spec_tokens_dropWhile (c :: rest), ← spec_tokens_dropWhile rest, h1]
          have h3 : specRest (c :: rest) = specRest rest := by
            unfold specRest
            rw [h1, h2]
          rw [h2, h3]
        · have hb : (false || !isPySpace c) = true := by simp [hws]
          rw [hb, durLoopF_gapTrue (by omega)]
          have hd : (c :: rest).dropWhile isPySpace = c :: rest :=
            List.dropWhile_cons_of_neg (by simpa using hws)
          have hs : spec_tokens (c :: rest) = none := by
            unfold spec_tokens
            rw [spec_tokensF_succ, hd, htok]
          have hr : specRest (c :: rest) = none := by
            unfold specRest
            rw [hd]
            simp [hs]
          cases seen <;> simp [hs, hr]

theorem stripManagedGo_marker_free {L : List (List Char)} (h : marker_free L) :
    stripManagedGo false L = L := by
  induction L with
  | nil => rfl
  | cons l L ih =>
    obtain ⟨h1, h2⟩ := h l (List.mem_cons_self l L)
    have ih' := ih fun x hx => h x (List.mem_cons_of_mem l hx)
    simp [stripManagedGo, h1, h2, ih']

theorem stripManagedGo_append_no_start {pre : List (List Char)} (R : List (List Char))
    (h : ∀ l ∈ pre, stripChars l ≠ MANAGED_START) :
    stripManagedGo false (pre ++ R) = stripManagedGo false pre ++ stripManagedGo false R := by
  induction pre with
  | nil => rfl
  | cons l pre ih =>
    have h1 := h l (List.mem_cons_self l pre)
    have ih' := ih fun x hx => h x (List.mem_cons_of_mem l hx)
    have hms : ¬(MANAGED_END = MANAGED_START) := by decide
    by_cases h2 : stripChars l = MANAGED_END
    · simp [stripManagedGo, h1, h2, ih', hms]
    · simp [stripManagedGo, h1, h2, ih']

theorem stripManagedGo_true_marker_free {M : List (List Char)} (h : marker_free M)
    (R : List (List Char)) :
    stripManagedGo true (M ++ R) = stripManagedGo true R := by
  induction M with
  | nil => rfl
  | cons l M ih =>
    obtain ⟨h1, h2⟩ := h l (List.mem_cons_self l M)
    have ih' := ih fun x hx => h x (List.mem_cons_of_mem l hx)
    simp [stripManagedGo, h1, h2, ih']

theorem stripManagedGo_true_no_end {rest : List (List Char)}
    (h : ∀ l ∈ rest, stripChars l ≠ MANAGED_END) :
    stripManagedGo true rest = [] := by
  induction rest with
  | nil => rfl
  | cons l rest ih =>
    have h2 := h l (List.mem_cons_self l rest)
    have ih' := ih fun x hx => h x (List.mem_cons_of_mem l hx)
    by_cases h1 : stripChars l = MANAGED_START
    · simp [stripManagedGo, h1, h2, ih']
    · simp [stripManagedGo, h1, h2, ih']

theorem stripManagedGo_start {s : List Char} (h : stripChars s = MANAGED_START)
    (b : Bool) (R : List (List Char)) :
    stripManagedGo b (s :: R) = stripManagedGo true R := by
  simp [stripManagedGo, h]

theorem stripManagedGo_end {e : List Char} (h : stripChars e = MANAGED_END)
    (R : List (List Char)) :
    stripManagedGo true (e :: R) = stripManagedGo false R := by
  have hms : ¬(MANAGED_END = MANAGED_START) := by decide
  simp [stripManagedGo, h, hms]

theorem apply_hosts_snd (original : List Char) (domains : List (List Char))
    (should_block : Bool) :
    (apply_hosts original domains should_block).2 =
      joinNl (rebuildLines (_strip_managed (splitlinesL original)) domains should_block) ++
        newlineOf original := by
  by_cases h : (joinNl (rebuildLines (_strip_managed (splitlinesL original)) domains
      should_block) ++ newlineOf original == original) = true
  · simp only [apply_hosts, h, if_true]
    exact (beq_iff_eq.mp h).symm
  · simp only [apply_hosts, h, if_false, Bool.false_eq_true]

theorem rebuildLines_expand (cleaned domains : List (List Char)) (should_block : Bool) :
    rebuildLines cleaned domains should_block =
      cleaned ++
        (if should_block && !domains.isEmpty then
          (if needsSep cleaned then [[]] else []) ++ render_block_section domains
        else []) := by
  unfold rebuildLines
  by_cases h1 : (should_block && !domains.isEmpty) = true
  · by_cases h2 : needsSep cleaned = true <;> simp [h1, h2]
  · simp [h1]

theorem strip_wellformed {pre mid post : List (List Char)} {s e : List Char}
    (hs : stripChars s = MANAGED_START) (he : stripChars e = MANAGED_END)
    (hpre : marker_free pre) (hmid : marker_free mid) (hpost : marker_free post) :
    _strip_managed (pre ++ s :: (mid ++ e :: post)) = pre ++ post := by
  unfold _strip_managed
  rw [stripManagedGo_append_no_start _ fun l hl => (hpre l hl).1,
    stripManagedGo_marker_free hpre, stripManagedGo_start hs,
    stripManagedGo_true_marker_free hmid, stripManagedGo_end he,
    stripManagedGo_marker_free hpost]

/-- Claim C3 (confirmed).  On a file whose managed block is well-formed
(lines split as `pre ++ [start] ++ mid ++ [end] ++ post` with no marker
lines elsewhere), `apply_hosts` removes the managed region including both
marker lines, keeps every outside line verbatim in order, and — when
blocking with non-empty domains — appends the rendered block (start
marker, the two sinkhole entries per domain in order, end marker),
preceded by a blank separator line exactly when the last remaining line is
non-blank; the original trailing-newline convention is preserved. -/
theorem apply_hosts_wellformed_spec (original : List Char) (domains : List (List Char))
    (should_block : Bool) (pre mid post : List (List Char)) (s e : List Char)
    (hsplit : splitlinesL original = pre ++ s :: (mid ++ e :: post))
    (hs : stripChars s = MANAGED_START) (he : stripChars e = MANAGED_END)
    (hpre : marker_free pre) (hmid : marker_free mid) (hpost : marker_free post) :
    _strip_managed (splitlinesL original) = pre ++ post ∧
    (apply_hosts original domains should_block).2 =
      joinNl ((pre ++ post) ++
          (if should_block && !domains.isEmpty then
            (if needsSep (pre ++ post) then [[]] else []) ++ render_block_section domains
          else [])) ++
        newlineOf original := by
  have hstrip : _strip_managed (splitlinesL original) = pre ++ post := by
    rw [hsplit]
    exact strip_wellformed hs he hpre hmid hpost
  refine ⟨hstrip, ?_⟩
  rw [apply_hosts_snd, hstrip, rebuildLines_expand]

/-- Witness for C3 on a hosts file with one managed block and one
unmanaged line. -/
theorem apply_hosts_wellformed_spec_witness :
    _strip_managed (splitlinesL
        "127.0.0.1 localhost\n# xgate:start\n0.0.0.0 x.com\n# xgate:end\n".data) =
      ["127.0.0.1 localhost".data] ++ [] ∧
    (apply_hosts "127.0.0.1 localhost\n# xgate:start\n0.0.0.0 x.com\n# xgate:end\n".data
        ["x.com".data] true).2 =
      joinNl ((["127.0.0.1 localhost".data] ++ []) ++
          (if true && !(["x.com".data] : List (List Char)).isEmpty then
            (if needsSep (["127.0.0.1 localhost".data] ++ []) then [[]] else []) ++
              render_block_section ["x.com".data]
          else [])) ++
        newlineOf "127.0.0.1 localhost\n# xgate:start\n0.0.0.0 x.com\n# xgate:end\n".data :=
  apply_hosts_wellformed_spec _ ["x.com".data] true
    ["127.0.0.1 localhost".data] ["0.0.0.0 x.com".data] []
    "# xgate:start".data "# xgate:end".data
    (by decide) (by decide) (by decide) (by decide) (by decide) (by decide)

/-- Claim C10 (confirmed).  When the file contains a start-marker line with
no later end-marker line, `apply_hosts` drops the start marker and every
line after it: nothing following an unmatched start marker survives. -/
theorem apply_hosts_unmatched_start (original : List Char) (domains : List (List Char))
    (should_block : Bool) (pre rest : List (List Char)) (s : List Char)
    (hsplit : splitlinesL original = pre ++ s :: rest)
    (hs : stripChars s = MANAGED_START)
    (hpre : ∀ l ∈ pre, stripChars l ≠ MANAGED_START)
    (hrest : ∀ l ∈ rest, stripChars l ≠ MANAGED_END) :
    _strip_managed (splitlinesL original) = _strip_managed pre ∧
    (apply_hosts original domains should_block).2 =
      joinNl (rebuildLines (_strip_managed pre) domains should_block) ++
        newlineOf original := by
  have hstrip : _strip_managed (splitlinesL original) = _strip_managed pre := by
    rw [hsplit]
    unfold _strip_managed
    rw [stripManagedGo_append_no_start _ hpre, stripManagedGo_start hs,
      stripManagedGo_true_no_end hrest, List.append_nil]
  refine ⟨hstrip, ?_⟩
  rw [apply_hosts_snd, hstrip]

/-- Witness for C10: content after the unmatched start marker is dropped. -/
theorem apply_hosts_unmatched_start_witness :
    _strip_managed (splitlinesL "a\n# xgate:start\nsecret\nmore".data) =
      _strip_managed ["a".data] ∧
    (apply_hosts "a\n# xgate:start\nsecret\nmore".data [] false).2 =
      joinNl (rebuildLines (_strip_managed ["a".data]) [] false) ++
        newlineOf "a\n# xgate:start\nsecret\nmore".data :=
  apply_hosts_unmatched_start _ [] false ["a".data] ["secret".data, "more".data]
    "# xgate:start".data
    (by decide) (by decide) (by decide) (by decide)

/-- One-step unfolding of `splitlinesL` (definitional). -/
theorem splitlinesL_cons (c : Char) (cs : List Char) :
    splitlinesL (c :: cs) =
      if c == Char.ofNat 10 then [] :: splitlinesL cs
      else
        match splitlinesL cs with
        | [] => [[c]]
        | l :: ls => (c :: l) :: ls := rfl

theorem mem_splitlinesL_no_newline (cs : List Char) :
    ∀ l ∈ splitlinesL cs, Char.ofNat 10 ∉ l := by
  induction cs with
  | nil => intro l hl; cases hl
  | cons c cs ih =>
    intro l hl
    rw [splitlinesL_cons] at hl
    by_cases hc : (c == Char.ofNat 10) = true
    · rw [if_pos hc] at hl
      rcases List.mem_cons.mp hl with rfl | hl
      · exact List.not_mem_nil _
      · exact ih l hl
    · rw [if_neg hc] at hl
      cases hsp : splitlinesL cs with
      | nil =>
        rw [hsp] at hl
        rcases List.mem_cons.mp hl with rfl | hl
        · intro hmem
          rcases List.mem_singleton.mp hmem with rfl
          exact hc rfl
        · cases hl
      | cons x xs =>
        rw [hsp] at hl
        rcases List.mem_cons.mp hl with rfl | hl
        · intro hmem
          rcases List.mem_cons.mp hmem with rfl | hmem
          · exact hc rfl
          · exact ih x (hsp ▸ List.mem_cons_self x xs) hmem
        · exact ih l (hsp ▸ List.mem_cons_of_mem x hl)

theorem splitlinesL_single {l : List Char} (hnl : Char.ofNat 10 ∉ l) (hne : l ≠ []) :
    splitlinesL l = [l] := by
  induction l with
  | nil => exact absurd rfl hne
  | cons c l ih =>
    have hc : (c == Char.ofNat 10) = false := by
      simp only [beq_eq_false_iff_ne, ne_eq]
      intro h
      exact hnl (h ▸ List.mem_cons_self c l)
    rw [splitlinesL_cons, if_neg (by simp [hc])]
    cases hl : l with
    | nil => rfl
    | cons d l' =>
      rw [← hl, ih (fun h => hnl (List.mem_cons_of_mem c h)) (by simp [hl])]

theorem splitlinesL_line_append {l : List Char} (rest : List Char)
    (hnl : Char.ofNat 10 ∉ l) :
    splitlinesL (l ++ Char.ofNat 10 :: rest) = l :: splitlinesL rest := by
  induction l with
  | nil =>
    simp only [List.nil_append]
    rw [splitlinesL_cons, if_pos (by decide)]
  | cons c l ih =>
    have hc : (c == Char.ofNat 10) = false := by
      simp only [beq_eq_false_iff_ne, ne_eq]
      intro h
      exact hnl (h ▸ List.mem_cons_self c l)
    simp only [List.cons_append]
    rw [splitlinesL_cons, if_neg (by simp [hc]),
      ih (fun h => hnl (List.mem_cons_of_mem c h))]

theorem splitlinesL_joinNl_newline {L : List (List Char)} (hne : L ≠ [])
    (hnl : ∀ l ∈ L, Char.ofNat 10 ∉ l) :
    splitlinesL (joinNl L ++ [Char.ofNat 10]) = L := by
  induction L with
  | nil => exact absurd rfl hne
  | cons x L ih =>
    cases L with
    | nil =>
      show splitlinesL (x ++ Char.ofNat 10 :: []) = [x]
      rw [splitlinesL_line_append [] (hnl x (List.mem_cons_self x []))]
      rfl
    | cons y L' =>
      show splitlinesL ((x ++ Char.ofNat 10 :: joinNl (y :: L')) ++ [Char.ofNat 10]) = _
      rw [List.append_assoc, List.cons_append,
        splitlinesL_line_append _ (hnl x (List.mem_cons_self x _)),
        ih (by simp) (fun l hl => hnl l (List.mem_cons_of_mem x hl))]

theorem splitlinesL_joinNl {L : List (List Char)} (hne : L ≠ [])
    (hnl : ∀ l ∈ L, Char.ofNat 10 ∉ l) (hlast : L.getLast? ≠ some []) :
    splitlinesL (joinNl L) = L := by
  induction L with
  | nil => exact absurd rfl hne
  | cons x L ih =>
    cases L with
    | nil =>
      have hx : x ≠ [] := by
        intro h
        exact hlast (by simp [h])
      show splitlinesL x = [x]
      exact splitlinesL_single (hnl x (List.mem_cons_self x [])) hx
    | cons y L' =>
      show splitlinesL (x ++ Char.ofNat 10 :: joinNl (y :: L')) = _
      rw [splitlinesL_line_append _ (hnl x (List.mem_cons_self x _)),
        ih (by simp) (fun l hl => hnl l (List.mem_cons_of_mem x hl))
          (by simpa [List.getLast?_cons_cons] using hlast)]

theorem joinNl_cons {L : List (List Char)} (x : List Char) (h : L ≠ []) :
    joinNl (x :: L) = x ++ Char.ofNat 10 :: joinNl L := by
  cases L with
  | nil => exact absurd rfl h
  | cons y L' => rfl

theorem joinNl_concat_nil {L : List (List Char)} (h : L ≠ []) :
    joinNl (L ++ [[]]) = joinNl L ++ [Char.ofNat 10] := by
  induction L with
  | nil => exact absurd rfl h
  | cons x L ih =>
    cases L with
    | nil => rfl
    | cons y L' =>
      rw [List.cons_append, joinNl_cons x (by simp), joinNl_cons x (by simp), ih (by simp)]
      simp

theorem joinNl_ne_nil {L : List (List Char)} (hne : L ≠ [])
    (hlast : L.getLast? ≠ some []) : joinNl L ≠ [] := by
  cases L with
  | nil => exact absurd rfl hne
  | cons x L =>
    cases L with
    | nil =>
      have : x ≠ [] := fun h => hlast (by simp [h])
      simpa [joinNl] using this
    | cons y L' =>
      rw [@joinNl_cons (y :: L') x (by simp)]
      simp

theorem getLast?_joinNl_ne_newline {L : List (List Char)} (hne : L ≠ [])
    (hlast : L.getLast? ≠ some []) (hnl : ∀ l ∈ L, Char.ofNat 10 ∉ l) :
    (joinNl L).getLast? ≠ some (Char.ofNat 10) := by
  induction L with
  | nil => exact absurd rfl hne
  | cons x L ih =>
    cases L with
    | nil =>
      intro hc
      obtain ⟨hx, heq⟩ := List.mem_getLast?_eq_getLast (show Char.ofNat 10 ∈ (joinNl [x]).getLast? from hc)
      exact hnl x (List.mem_cons_self x []) (heq ▸ List.getLast_mem hx)
    | cons y L' =>
      have hL : (y :: L') ≠ ([] : List (List Char)) := by simp
      have hlast' : (y :: L').getLast? ≠ some [] := by
        simpa [List.getLast?_cons_cons] using hlast
      have hj := joinNl_ne_nil hL hlast'
      rw [joinNl_cons x hL, List.getLast?_append_cons]
      cases hjl : joinNl (y :: L') with
      | nil => exact absurd hjl hj
      | cons a as =>
        rw [List.getLast?_cons_cons]
        rw [← hjl]
        exact ih hL hlast' fun l hl => hnl l (List.mem_cons_of_mem x hl)

theorem stripChars_cons_of_head (c : Char) (cs : List Char) (hc : isPySpace c = false) :
    ∃ cs', stripChars (c :: cs) = c :: cs' := by
  unfold stripChars
  rw [List.dropWhile_cons_of_neg (by simp [hc])]
  rw [show (c :: cs).reverse = cs.reverse ++ [c] from by simp]
  rw [List.dropWhile_append]
  by_cases h : (cs.reverse.dropWhile isPySpace).isEmpty
  · refine ⟨[], ?_⟩
    rw [if_pos h, List.dropWhile_cons_of_neg (by simp [hc])]
    rfl
  · refine ⟨(cs.reverse.dropWhile isPySpace).reverse, ?_⟩
    rw [if_neg h]
    simp

theorem entry4_not_marker (d : List Char) :
    stripChars ("0.0.0.0 ".data ++ d) ≠ MANAGED_START ∧
    stripChars ("0.0.0.0 ".data ++ d) ≠ MANAGED_END := by
  obtain ⟨cs', hcs'⟩ := stripChars_cons_of_head '0' (".0.0.0 ".data ++ d) (by decide)
  rw [show "0.0.0.0 ".data ++ d = '0' :: (".0.0.0 ".data ++ d) from rfl, hcs']
  constructor <;> intro h <;> cases h

theorem entry6_not_marker (d : List Char) :
    stripChars ("::1 ".data ++ d) ≠ MANAGED_START ∧
    stripChars ("::1 ".data ++ d) ≠ MANAGED_END := by
  obtain ⟨cs', hcs'⟩ := stripChars_cons_of_head ':' (":1 ".data ++ d) (by decide)
  rw [show "::1 ".data ++ d = ':' :: (":1 ".data ++ d) from rfl, hcs']
  constructor <;> intro h <;> cases h

theorem domainEntries_marker_free (ds : List (List Char)) :
    marker_free (domainEntries ds) := by
  induction ds with
  | nil => intro l hl; cases hl
  | cons d ds ih =>
    intro l hl
    rcases List.mem_cons.mp hl with rfl | hl
    · exact entry4_not_marker d
    · rcases List.mem_cons.mp hl with rfl | hl
      · exact entry6_not_marker d
      · exact ih l hl

theorem stripManagedGo_subset (b : Bool) (L : List (List Char)) :
    ∀ l ∈ stripManagedGo b L, l ∈ L := by
  induction L generalizing b with
  | nil => intro l hl; cases hl
  | cons x L ih =>
    intro l hl
    unfold stripManagedGo at hl
    by_cases h1 : (stripChars x == MANAGED_START) = true
    · rw [if_pos h1] at hl
      exact List.mem_cons_of_mem x (ih true l hl)
    · rw [if_neg h1] at hl
      by_cases h2 : (stripChars x == MANAGED_END) = true
      · rw [if_pos h2] at hl
        exact List.mem_cons_of_mem x (ih false l hl)
      · rw [if_neg h2] at hl
        cases b with
        | true => exact List.mem_cons_of_mem x (ih true l hl)
        | false =>
          rcases List.mem_cons.mp hl with rfl | hl
          · exact List.mem_cons_self l L
          · exact List.mem_cons_of_mem x (ih false l hl)

theorem stripManagedGo_output_marker_free (b : Bool) (L : List (List Char)) :
    marker_free (stripManagedGo b L) := by
  induction L generalizing b with
  | nil => intro l hl; cases hl
  | cons x L ih =>
    intro l hl
    unfold stripManagedGo at hl
    by_cases h1 : (stripChars x == MANAGED_START) = true
    · rw [if_pos h1] at hl
      exact ih true l hl
    · rw [if_neg h1] at hl
      by_cases h2 : (stripChars x == MANAGED_END) = true
      · rw [if_pos h2] at hl
        exact ih false l hl
      · rw [if_neg h2] at hl
        cases b with
        | true => exact ih true l hl
        | false =>
          rcases List.mem_cons.mp hl with rfl | hl
          · exact ⟨by simpa using h1, by simpa using h2⟩
          · exact ih false l hl

theorem strip_append_block {cb : List (List Char)} (ds : List (List Char))
    (hcb : marker_free cb) :
    stripManagedGo false (cb ++ render_block_section ds) = cb := by
  rw [stripManagedGo_append_no_start _ fun l hl => (hcb l hl).1,
    stripManagedGo_marker_free hcb]
  unfold render_block_section
  rw [List.cons_append, stripManagedGo_start (by decide),
    stripManagedGo_true_marker_free (domainEntries_marker_free ds),
    stripManagedGo_end (by decide)]
  simp [stripManagedGo]

theorem needsSep_concat_nil (c : List (List Char)) : needsSep (c ++ [[]]) = false := by
  unfold needsSep
  rw [show (c ++ [[]]) = c ++ [] :: [] from rfl, List.getLast?_append_cons]
  rfl

/-- Re-stripping and re-appending reproduces the rebuilt line list. -/
theorem rebuild_strip_rebuild {c : List (List Char)} (ds : List (List Char)) (sb : Bool)
    (hc : marker_free c) :
    rebuildLines (_strip_managed (rebuildLines c ds sb)) ds sb = rebuildLines c ds sb := by
  unfold rebuildLines
  by_cases hb : (sb && !ds.isEmpty) = true
  · rw [if_pos hb, if_pos hb]
    by_cases hsep : needsSep c = true
    · rw [if_pos hsep]
      have hcb : marker_free (c ++ [[]]) := by
        intro l hl
        rcases List.mem_append.mp hl with hl | hl
        · exact hc l hl
        · rcases List.mem_singleton.mp hl with rfl
          exact ⟨by decide, by decide⟩
      rw [show _strip_managed ((c ++ [[]]) ++ render_block_section ds) = c ++ [[]] from
        strip_append_block ds hcb]
      rw [if_neg (by simp [needsSep_concat_nil])]
    · rw [if_neg hsep]
      rw [show _strip_managed (c ++ render_block_section ds) = c from
        strip_append_block ds hc]
      rw [if_neg hsep]
  · rw [if_neg hb, if_neg hb]
    rw [show _strip_managed c = c from stripManagedGo_marker_free hc]

theorem domainEntries_no_newline {ds : List (List Char)}
    (hds : ∀ d ∈ ds, Char.ofNat 10 ∉ d) :
    ∀ l ∈ domainEntries ds, Char.ofNat 10 ∉ l := by
  induction ds with
  | nil => intro l hl; cases hl
  | cons d ds ih =>
    have hd := hds d (List.mem_cons_self d ds)
    have ih' := ih fun x hx => hds x (List.mem_cons_of_mem d hx)
    intro l hl
    rcases List.mem_cons.mp hl with rfl | hl
    · intro hmem
      rcases List.mem_append.mp hmem with hmem | hmem
      · revert hmem; decide
      · exact hd hmem
    · rcases List.mem_cons.mp hl with rfl | hl
      · intro hmem
        rcases List.mem_append.mp hmem with hmem | hmem
        · revert hmem; decide
        · exact hd hmem
      · exact ih' l hl

theorem mem_rebuild_no_newline {c ds : List (List Char)} {sb : Bool}
    (hc : ∀ l ∈ c, Char.ofNat 10 ∉ l) (hds : ∀ d ∈ ds, Char.ofNat 10 ∉ d) :
    ∀ l ∈ rebuildLines c ds sb, Char.ofNat 10 ∉ l := by
  intro l hl
  unfold rebuildLines at hl
  by_cases hb : (sb && !ds.isEmpty) = true
  · rw [if_pos hb] at hl
    rcases List.mem_append.mp hl with hl | hl
    · by_cases hsep : needsSep c = true
      · rw [if_pos hsep] at hl
        rcases List.mem_append.mp hl with hl | hl
        · exact hc l hl
        · rcases List.mem_singleton.mp hl with rfl
          exact List.not_mem_nil _
      · rw [if_neg hsep] at hl
        exact hc l hl
    · unfold render_block_section at hl
      rcases List.mem_append.mp hl with hl | hl
      · rcases List.mem_cons.mp hl with rfl | hl
        · decide
        · exact domainEntries_no_newline hds l hl
      · rcases List.mem_singleton.mp hl with rfl
        decide
  · rw [if_neg hb] at hl
    exact hc l hl

theorem getLast?_concat_elt {α : Type} (xs : List α) (a : α) :
    (xs ++ [a]).getLast? = some a := by
  rw [show (xs ++ [a]) = xs ++ a :: [] from rfl, List.getLast?_append_cons]
  rfl

theorem newlineOf_of_last_newline {x : List Char}
    (h : x.getLast? = some (Char.ofNat 10)) : newlineOf x = [Char.ofNat 10] := by
  unfold newlineOf
  rw [h]
  rfl

theorem newlineOf_of_last_other {x : List Char}
    (h1 : x.getLast? ≠ some (Char.ofNat 10)) (h2 : x ≠ []) : newlineOf x = [] := by
  unfold newlineOf
  rw [if_neg]
  simp only [Bool.or_eq_true, beq_iff_eq, List.isEmpty_iff]
  rintro (h | h)
  · exact h1 h
  · exact h2 h

/-- The reassembled text of a previous application is a fixed point of the
reassembly, provided it is non-empty. -/
theorem reassemble_fixpoint {L : List (List Char)} (ds : List (List Char)) (sb : Bool)
    (hL_nl : ∀ l ∈ L, Char.ofNat 10 ∉ l)
    (hrebuild : rebuildLines (_strip_managed L) ds sb = L)
    (hrebuild_dl : L.getLast? = some [] →
      rebuildLines (_strip_managed L.dropLast) ds sb = L.dropLast)
    (hstrip_nilline : L = [] → rebuildLines (_strip_managed [[]]) ds sb = [[]])
    (nl : List Char) (hnl : nl = [Char.ofNat 10] ∨ nl = [])
    (hne : joinNl L ++ nl ≠ []) :
    joinNl (rebuildLines (_strip_managed (splitlinesL (joinNl L ++ nl))) ds sb) ++
      newlineOf (joinNl L ++ nl) = joinNl L ++ nl := by
  rcases hnl with rfl | rfl
  · -- trailing newline present
    cases hL : L with
    | nil =>
      show joinNl (rebuildLines (_strip_managed (splitlinesL [Char.ofNat 10])) ds sb) ++
          newlineOf [Char.ofNat 10] = [Char.ofNat 10]
      rw [show splitlinesL [Char.ofNat 10] = [[]] from rfl, hstrip_nilline hL]
      rfl
    | cons x L' =>
      rw [← hL]
      have hLne : L ≠ [] := by rw [hL]; simp
      rw [splitlinesL_joinNl_newline hLne hL_nl, hrebuild,
        newlineOf_of_last_newline (getLast?_concat_elt _ _)]
  · -- no trailing newline
    rw [List.append_nil] at hne ⊢
    have hLne : L ≠ [] := by
      intro h
      exact hne (by simp [h, joinNl])
    by_cases hlast : L.getLast? = some []
    · -- the last line is blank: the join ends with a newline
      have hdecomp : L.dropLast ++ [[]] = L := List.dropLast_append_getLast? [] hlast
      have hd_ne : L.dropLast ≠ [] := by
        intro h
        rw [h, List.nil_append] at hdecomp
        rw [← hdecomp] at hne
        exact hne (by simp [joinNl])
      have hd_nl : ∀ l ∈ L.dropLast, Char.ofNat 10 ∉ l := fun l hl =>
        hL_nl l (hdecomp ▸ List.mem_append_left _ hl)
      have hjoin : joinNl L = joinNl L.dropLast ++ [Char.ofNat 10] := by
        conv_lhs => rw [← hdecomp]
        exact joinNl_concat_nil hd_ne
      rw [hjoin, splitlinesL_joinNl_newline hd_ne hd_nl, hrebuild_dl hlast,
        newlineOf_of_last_newline (getLast?_concat_elt _ _)]
    · rw [splitlinesL_joinNl hLne hL_nl hlast, hrebuild,
        newlineOf_of_last_other (getLast?_joinNl_ne_newline hLne hlast hL_nl) hne,
        List.append_nil]

theorem apply_hosts_of_fixpoint {x : List Char} {ds : List (List Char)} {sb : Bool}
    (h : joinNl (rebuildLines (_strip_managed (splitlinesL x)) ds sb) ++ newlineOf x = x) :
    apply_hosts x ds sb = (false, x) := by
  have hbeq : (joinNl (rebuildLines (_strip_managed (splitlinesL x)) ds sb) ++
      newlineOf x == x) = true := beq_iff_eq.mpr h
  simp only [apply_hosts, hbeq, if_true]

/-- A second application of the same `(domains, should_block)` is a no-op,
provided the first application left a non-empty file. -/
theorem apply_hosts_fixpoint (t : List Char) (ds : List (List Char)) (sb : Bool)
    (hds : ∀ d ∈ ds, Char.ofNat 10 ∉ d)
    (hne : (apply_hosts t ds sb).2 ≠ []) :
    apply_hosts (apply_hosts t ds sb).2 ds sb = (false, (apply_hosts t ds sb).2) := by
  have hT := apply_hosts_snd t ds sb
  have hc_mf : marker_free (_strip_managed (splitlinesL t)) :=
    stripManagedGo_output_marker_free false _
  have hc_nl : ∀ l ∈ _strip_managed (splitlinesL t), Char.ofNat 10 ∉ l := fun l hl =>
    mem_splitlinesL_no_newline t l (stripManagedGo_subset false _ l hl)
  have hL_nl : ∀ l ∈ rebuildLines (_strip_managed (splitlinesL t)) ds sb,
      Char.ofNat 10 ∉ l := mem_rebuild_no_newline hc_nl hds
  have hnlopt : newlineOf t = [Char.ofNat 10] ∨ newlineOf t = [] := by
    unfold newlineOf
    split
    · exact Or.inl rfl
    · exact Or.inr rfl
  have h1 : rebuildLines (_strip_managed (rebuildLines (_strip_managed (splitlinesL t))
      ds sb)) ds sb = rebuildLines (_strip_managed (splitlinesL t)) ds sb :=
    rebuild_strip_rebuild ds sb hc_mf
  have h2 : (rebuildLines (_strip_managed (splitlinesL t)) ds sb).getLast? = some [] →
      rebuildLines (_strip_managed
          (rebuildLines (_strip_managed (splitlinesL t)) ds sb).dropLast) ds sb =
        (rebuildLines (_strip_managed (splitlinesL t)) ds sb).dropLast := by
    intro hlast
    by_cases hb : (sb && !ds.isEmpty) = true
    · exfalso
      have hEnd : (rebuildLines (_strip_managed (splitlinesL t)) ds sb).getLast? =
          some MANAGED_END := by
        unfold rebuildLines render_block_section
        rw [if_pos hb, ← List.append_assoc]
        exact getLast?_concat_elt _ _
      rw [hEnd] at hlast
      exact absurd (Option.some.inj hlast) (by decide)
    · have hLc : rebuildLines (_strip_managed (splitlinesL t)) ds sb =
          _strip_managed (splitlinesL t) := by
        unfold rebuildLines
        rw [if_neg hb]
      rw [hLc]
      have hmf : marker_free (_strip_managed (splitlinesL t)).dropLast := fun l hl =>
        hc_mf l ((List.dropLast_sublist _).subset hl)
      rw [show _strip_managed (_strip_managed (splitlinesL t)).dropLast =
          (_strip_managed (splitlinesL t)).dropLast from stripManagedGo_marker_free hmf]
      unfold rebuildLines
      rw [if_neg hb]
  have h3 : rebuildLines (_strip_managed (splitlinesL t)) ds sb = [] →
      rebuildLines (_strip_managed [[]]) ds sb = [[]] := by
    intro hLnil
    by_cases hb : (sb && !ds.isEmpty) = true
    · exfalso
      unfold rebuildLines render_block_section at hLnil
      rw [if_pos hb] at hLnil
      simp at hLnil
    · rw [show _strip_managed [[]] = [[]] from rfl]
      unfold rebuildLines
      rw [if_neg hb]
  have hkey := reassemble_fixpoint ds sb hL_nl h1 h2 h3 (newlineOf t) hnlopt
    (by rw [← hT]; exact hne)
  rw [hT]
  exact apply_hosts_of_fixpoint hkey

/-- Claim C2, counterexample.  Idempotence fails on a file that consists only
of marker lines and has no trailing newline: the first application empties
the file (`changed = true`), and the second application writes a lone
newline and reports `changed = true` again instead of the claimed
`changed = false` with a byte-identical file. -/
theorem apply_hosts_claim_counterexample :
    apply_hosts "# xgate:start\n# xgate:end".data [] false = (true, []) ∧
    apply_hosts (apply_hosts "# xgate:start\n# xgate:end".data [] false).2 [] false =
      (true, [Char.ofNat 10]) := by
  constructor
  · rfl
  · rfl

/-- Claim C2 (corrected).  For newline-free domain entries: (1) if the first
application leaves a non-empty file, applying the same `(domains,
should_block)` again returns `changed = false` and leaves the content
byte-identical; (2) `changed = false` exactly when the reassembled text
equals the original (in which case nothing is written); (3) starting from
a file with no managed-marker lines, a blocking application with non-empty
domains returns `changed = true`.  The one exception to idempotence is a
first application that empties a non-empty file (see the
counterexample). -/
theorem apply_hosts_idempotent_amended :
    (∀ (t : List Char) (ds : List (List Char)) (sb : Bool),
        (∀ d ∈ ds, Char.ofNat 10 ∉ d) →
        (apply_hosts t ds sb).2 ≠ [] →
        apply_hosts (apply_hosts t ds sb).2 ds sb = (false, (apply_hosts t ds sb).2)) ∧
    (∀ (t : List Char) (ds : List (List Char)) (sb : Bool),
        (apply_hosts t ds sb).1 = false ↔ (apply_hosts t ds sb).2 = t) ∧
    (∀ (t : List Char) (ds : List (List Char)),
        marker_free (splitlinesL t) → ds ≠ [] → (∀ d ∈ ds, Char.ofNat 10 ∉ d) →
        (apply_hosts t ds true).1 = true) := by
  refine ⟨apply_hosts_fixpoint, ?_, ?_⟩
  · intro t ds sb
    by_cases hbeq : (joinNl (rebuildLines (_strip_managed (splitlinesL t)) ds sb) ++
        newlineOf t == t) = true
    · simp only [apply_hosts, hbeq, if_true]
    · simp only [apply_hosts, hbeq, if_false, Bool.false_eq_true]
      exact iff_of_false (by simp) fun h => hbeq (beq_iff_eq.mpr h)
  · intro t ds hmf hds_ne hds_nl
    have hb : (true && !ds.isEmpty) = true := by
      cases ds with
      | nil => exact absurd rfl hds_ne
      | cons d ds' => rfl
    have hEnd : (rebuildLines (_strip_managed (splitlinesL t)) ds true).getLast? =
        some MANAGED_END := by
      unfold rebuildLines render_block_section
      rw [if_pos hb, ← List.append_assoc]
      exact getLast?_concat_elt _ _
    have hLne : rebuildLines (_strip_managed (splitlinesL t)) ds true ≠ [] := by
      intro h
      rw [h] at hEnd
      cases hEnd
    have hlast_ne : (rebuildLines (_strip_managed (splitlinesL t)) ds true).getLast? ≠
        some [] := by
      rw [hEnd]
      intro h
      exact absurd (Option.some.inj h) (by decide)
    have hstart_mem : MANAGED_START ∈ rebuildLines (_strip_managed (splitlinesL t)) ds true := by
      unfold rebuildLines render_block_section
      rw [if_pos hb]
      exact List.mem_append_right _ (List.mem_append_left _ (List.mem_cons_self _ _))
    have hc_nl : ∀ l ∈ _strip_managed (splitlinesL t), Char.ofNat 10 ∉ l := fun l hl =>
      mem_splitlinesL_no_newline t l (stripManagedGo_subset false _ l hl)
    have hL_nl : ∀ l ∈ rebuildLines (_strip_managed (splitlinesL t)) ds true,
        Char.ofNat 10 ∉ l := mem_rebuild_no_newline hc_nl hds_nl
    by_cases hbeq : (joinNl (rebuildLines (_strip_managed (splitlinesL t)) ds true) ++
        newlineOf t == t) = true
    · exfalso
      have heq := beq_iff_eq.mp hbeq
      have hsplit_eq : splitlinesL t =
          rebuildLines (_strip_managed (splitlinesL t)) ds true := by
        conv_lhs => rw [← heq]
        have hnlopt : newlineOf t = [Char.ofNat 10] ∨ newlineOf t = [] := by
          unfold newlineOf
          split
          · exact Or.inl rfl
          · exact Or.inr rfl
        rcases hnlopt with hnl | hnl
        · rw [hnl]
          exact splitlinesL_joinNl_newline hLne hL_nl
        · rw [hnl, List.append_nil]
          exact splitlinesL_joinNl hLne hL_nl hlast_ne
      exact (hmf MANAGED_START (hsplit_eq ▸ hstart_mem)).1 (by decide)
    · simp only [apply_hosts, hbeq, if_false, Bool.false_eq_true]

/-- Witness for C2 (amended): a fresh hosts file gains a block on the
first application and is untouched by the second. -/
theorem apply_hosts_idempotent_amended_witness :
    (∀ d ∈ (["x.com".data] : List (List Char)), Char.ofNat 10 ∉ d) ∧
    (apply_hosts "127.0.0.1 localhost\n".data ["x.com".data] true).2 ≠ [] ∧
    apply_hosts (apply_hosts "127.0.0.1 localhost\n".data ["x.com".data] true).2
        ["x.com".data] true =
      (false, (apply_hosts "127.0.0.1 localhost\n".data ["x.com".data] true).2) :=
  ⟨by decide, by decide,
    apply_hosts_idempotent_amended.1 "127.0.0.1 localhost\n".data ["x.com".data] true
      (by decide) (by decide)⟩

/-- Claim C4, counterexample.  The claim, as stated, admits whitespace only
between tokens, so `"1 h"` (whitespace between the integer and its unit)
is outside the claimed grammar and the claim requires a format error; the
code accepts it and returns 3600. -/
theorem parse_duration_claim_counterexample :
    claimed_duration "1 h" = none ∧ parse_duration_seconds "1 h" = .ok 3600 :=
  ⟨rfl, rfl⟩

/-- Claim C4 (corrected).  `parse_duration_seconds` succeeds exactly on the
strings that, after stripping surrounding whitespace and lowercasing, are
one or more tokens of a positive integer followed — possibly after
whitespace — by a unit in `{s,m,h,d}`, with optional whitespace between
tokens and nothing else, and then returns the sum of
`amount * unit_seconds` over all tokens; it errors on every other input,
including the claim's examples. -/
theorem parse_duration_seconds_amended :
    (∀ (value : String) (n : ℕ),
        parse_duration_seconds value = .ok n ↔ spec_duration value = some n) ∧
    parse_duration_seconds "2d4h" = .ok 187200 ∧
    parse_duration_seconds "1h 30m" = .ok 5400 ∧
    parse_duration_seconds "1 h" = .ok 3600 ∧
    (parse_duration_seconds "").isOk = false ∧
    (parse_duration_seconds "3").isOk = false ∧
    (parse_duration_seconds "0h").isOk = false ∧
    (parse_duration_seconds "-3h").isOk = false ∧
    (parse_duration_seconds "1h foo").isOk = false := by
  refine ⟨?_, rfl, rfl, rfl, rfl, rfl, rfl, rfl, rfl⟩
  intro value n
  unfold parse_duration_seconds spec_duration
  by_cases he : (((stripChars value.data).map Char.toLower).isEmpty : Bool)
  · have hnilcs : (stripChars value.data).map Char.toLower = [] := by
      simpa using he
    rw [hnilcs]
    simp [he, show spec_tokens ([] : List Char) = none from rfl]
  · simp only [he, if_false, Bool.false_eq_true]
    unfold durLoop
    rw [durLoopF_spec (Nat.lt_succ_self _)]
    simp only [Bool.false_eq_true, if_false]
    constructor
    · rintro ⟨m, hm, rfl⟩
      simpa using hm
    · intro hsome
      exact ⟨n, hsome, by omega⟩

/-- Helper: `bool(reasons)` equals the disjunction of the three flags. -/
theorem reasons_nonempty_iff_or (t b a : Bool) :
    (!((if t then ["timer"] else []) ++ (if b then ["time_block"] else []) ++
       (if a then ["activity"] else [])).isEmpty) = (t || b || a) := by
  cases t <;> cases b <;> cases a <;> rfl

/-- Claim C1 (code bug).  `policy.block_decision` reads
`config.block_until_unix` (policy.py:100) and `config.time_blocks`
(policy.py:101), but the `GateConfig` dataclass it is given (config.py:22-29)
declares neither field, so every call with gating enabled raises
`AttributeError` instead of returning the `BlockDecision` the claim
describes. -/
theorem block_decision_gate_enabled_raises (config : GateConfig)
    (process_active : Bool) (now_unix : Option ℚ) (h : config.enabled = true) :
    block_decision_gate config process_active now_unix =
      .error (.attributeError "block_until_unix") := by
  simp [block_decision_gate, h]

/-- Witness for C1: the repository's own `DEFAULT_CONFIG` has gating
enabled, and evaluating the decision on it fails. -/
theorem block_decision_gate_enabled_raises_witness :
    DEFAULT_CONFIG.enabled = true ∧
    block_decision_gate DEFAULT_CONFIG false (some 100) =
      .error (.attributeError "block_until_unix") :=
  ⟨rfl, block_decision_gate_enabled_raises DEFAULT_CONFIG false (some 100) rfl⟩

/-- Claim C7 (confirmed).  With gating disabled, `block_decision` returns
no-block with empty reasons and all three flags false, regardless of every
other configuration field, the process-activity value and the time. -/
theorem block_decision_disabled (config : GateConfig) (process_active : Bool)
    (now_unix : Option ℚ) (h : config.enabled = false) :
    block_decision_gate config process_active now_unix =
      .ok { should_block := false, reasons := [], activity_block_active := false,
            time_block_active := false, timer_block_active := false } := by
  simp [block_decision_gate, h]

/-- Witness for C7: the default configuration with gating switched off,
an extreme process-activity value and an arbitrary time. -/
theorem block_decision_disabled_witness :
    ({ DEFAULT_CONFIG with enabled := false } : GateConfig).enabled = false ∧
    block_decision_gate { DEFAULT_CONFIG with enabled := false } true (some 0) =
      .ok { should_block := false, reasons := [], activity_block_active := false,
            time_block_active := false, timer_block_active := false } :=
  ⟨rfl, block_decision_disabled _ true (some 0) rfl⟩

/-- Claim C8 (confirmed).  Every `BlockDecision` that `block_decision`
returns has `reasons` equal to the subsequence of the fixed list
`[timer, time_block, activity]` selected by the corresponding flags, in
that order, and `should_block` equal to the disjunction of the three
flags. -/
theorem block_decision_reasons (config : GateConfigAttrs) (process_active : Bool)
    (now_unix : Option ℚ) (wall_unix : ℚ) (wall_local_minutes : ℕ) (d : BlockDecision)
    (h : block_decision config process_active now_unix wall_unix wall_local_minutes = .ok d) :
    d.reasons =
      (if d.timer_block_active then ["timer"] else []) ++
      (if d.time_block_active then ["time_block"] else []) ++
      (if d.activity_block_active then ["activity"] else []) ∧
    d.should_block =
      (d.timer_block_active || d.time_block_active || d.activity_block_active) := by
  unfold block_decision at h
  cases he : config.enabled with
  | false =>
    rw [he] at h
    simp only [Bool.not_false, if_true] at h
    cases h
    exact ⟨rfl, rfl⟩
  | true =>
    rw [he] at h
    simp only [Bool.not_true, Bool.false_eq_true, if_false] at h
    cases hany : anyTimeBlockActive config.time_blocks wall_local_minutes with
    | error e => rw [hany] at h; cases h
    | ok tb =>
      rw [hany] at h
      cases h
      exact ⟨rfl, reasons_nonempty_iff_or _ _ _⟩

/-- Witness for C8: a concrete enabled configuration whose timer is in the
future, with no time windows and activity blocking. -/
theorem block_decision_reasons_witness :
    block_decision ⟨true, false, 200, []⟩ true (some 100) 0 0 =
      .ok { should_block := true, reasons := ["timer", "activity"],
            activity_block_active := true, time_block_active := false,
            timer_block_active := true } ∧
    (["timer", "activity"] :
        List String) =
      (if true then ["timer"] else []) ++ (if false then ["time_block"] else []) ++
      (if true then ["activity"] else []) ∧
    (true : Bool) = (true || false || true) :=
  ⟨rfl, (block_decision_reasons ⟨true, false, 200, []⟩ true (some 100) 0 0 _ rfl)⟩

/-- Claim C5 (confirmed).  For every valid window string (one that matches
`WINDOW_RE` with in-range hours and minutes and distinct start and end)
and every local time `now` in minutes since midnight: with `start < end`
the window is active iff `start ≤ now < end`, and with `start ≥ end`
(overnight) iff `now ≥ start ∨ now < end`; the start boundary is inclusive
and the end boundary exclusive. -/
theorem is_time_block_active_spec (value : String) (sh sm eh em now : ℕ)
    (hm : windowMatch value = some (sh, sm, eh, em))
    (hsh : sh ≤ 23) (heh : eh ≤ 23) (hsm : sm ≤ 59) (hem : em ≤ 59)
    (hne : ¬(sh = eh ∧ sm = em)) :
    is_time_block_active value now =
      .ok (if sh * 60 + sm < eh * 60 + em
           then decide (sh * 60 + sm ≤ now ∧ now < eh * 60 + em)
           else decide (now ≥ sh * 60 + sm ∨ now < eh * 60 + em)) := by
  have h1 : (sh > 23 || eh > 23 || sm > 59 || em > 59) = false := by
    simp only [Bool.or_eq_false_iff, decide_eq_false_iff_not, not_lt]
    exact ⟨⟨⟨hsh, heh⟩, hsm⟩, hem⟩
  have h2 : (sh == eh && sm == em) = false := by
    rcases eq_or_ne sh eh with h | h
    · rcases eq_or_ne sm em with h' | h'
      · exact absurd ⟨h, h'⟩ hne
      · simp [h']
    · simp [h]
  unfold is_time_block_active
  rw [hm]
  simp only [h1, h2, Bool.false_eq_true, if_false]
  unfold _minutes_of_day
  by_cases hlt : sh * 60 + sm < eh * 60 + em <;> simp [hlt]

/-- Witness for C5 at the window `"09:00-17:00"` and `now = 540`. -/
theorem is_time_block_active_spec_witness :
    is_time_block_active "09:00-17:00" 540 =
      .ok (if 9 * 60 + 0 < 17 * 60 + 0
           then decide (9 * 60 + 0 ≤ 540 ∧ 540 < 17 * 60 + 0)
           else decide (540 ≥ 9 * 60 + 0 ∨ 540 < 17 * 60 + 0)) :=
  is_time_block_active_spec "09:00-17:00" 9 0 17 0 540 (by decide)
    (by decide) (by decide) (by decide) (by decide) (by decide)

/-- C5 support: evaluating a concrete window match. -/
example : Xgate.windowMatch "09:00-17:00" = some (9, 0, 17, 0) := by decide

example : Xgate.is_time_block_active "09:00-17:00" 540 = .ok true := rfl

example : Xgate.is_time_block_active "09:00-17:00" (16 * 60 + 59) = .ok true := rfl

example : Xgate.is_time_block_active "09:00-17:00" (17 * 60) = .ok false := rfl

example : Xgate.is_time_block_active "22:00 - 7:00" (23 * 60 + 30) = .ok true := rfl

example : Xgate.is_time_block_active "22:00-07:00" (12 * 60) = .ok false := rfl

example : Xgate.normalize_time_block "9:05-17:45" = .ok "09:05-17:45" := rfl

example : (Xgate.normalize_time_block "10:00-10:00").isOk = false := by decide

example : (Xgate.normalize_time_block "25:00-12:00").isOk = false := by decide

theorem freshEvidence_evidenceList (c h n : Bool) :
    freshEvidence (evidenceList c h n) ↔ (c || h || n) = true := by
  cases c <;> cases h <;> cases n <;> decide

theorem freshEvidence_append_grace (ev : List String) :
    freshEvidence (ev ++ ["grace"]) ↔ freshEvidence ev := by
  simp [freshEvidence, List.mem_append]

theorem activityResult_spec (c h n : Bool) (now last grace : ℚ) :
    (freshEvidence (activityResult (c || h || n) (evidenceList c h n) now last grace).2.2 →
      (activityResult (c || h || n) (evidenceList c h n) now last grace).1 = true ∧
      (activityResult (c || h || n) (evidenceList c h n) now last grace).2.1 = now) ∧
    (¬freshEvidence (activityResult (c || h || n) (evidenceList c h n) now last grace).2.2 →
      (activityResult (c || h || n) (evidenceList c h n) now last grace).2.1 = last ∧
      (if last ≠ 0 ∧ now - last ≤ grace then
        (activityResult (c || h || n) (evidenceList c h n) now last grace).1 = true ∧
          "grace" ∈ (activityResult (c || h || n) (evidenceList c h n) now last grace).2.2
       else (activityResult (c || h || n) (evidenceList c h n) now last grace).1 = false)) := by
  by_cases hcn : (c || h || n) = true
  · have hfresh : freshEvidence (evidenceList c h n) :=
      (freshEvidence_evidenceList c h n).mpr hcn
    rw [hcn]
    exact ⟨fun _ => ⟨rfl, rfl⟩, fun hnf => absurd hfresh hnf⟩
  · have hcn' : (c || h || n) = false := by
      cases hb : (c || h || n)
      · rfl
      · exact absurd hb hcn
    have hnfresh : ¬freshEvidence (evidenceList c h n) := fun hf =>
      hcn ((freshEvidence_evidenceList c h n).mp hf)
    rw [hcn']
    unfold activityResult
    simp only [Bool.false_eq_true, if_false]
    by_cases hg : last ≠ 0 ∧ now - last ≤ grace
    · rw [if_pos hg]
      refine ⟨fun hf => ?_, fun _ => ?_⟩
      · exact absurd ((freshEvidence_append_grace _).mp hf) hnfresh
      · refine ⟨rfl, ?_⟩
        rw [if_pos hg]
        exact ⟨rfl, List.mem_append_right _ (List.mem_cons_self _ _)⟩
    · rw [if_neg hg]
      refine ⟨fun hf => absurd hf hnfresh, fun _ => ⟨rfl, ?_⟩⟩
      rw [if_neg hg]

theorem process_active_spec (config : ProcessConfig) (watch : String → Bool)
    (platformSystem : String) (netTotals : String → Option (ℤ × ℤ)) (now : ℚ)
    (matchSet : List ProcessInfo) (children : List (String × List ProcessInfo))
    (prev : List (String × ℤ × ℤ)) (last : ℚ)
    (r : Bool × ℚ × List String × List (String × ℤ × ℤ))
    (hr : _process_active config watch platformSystem netTotals now matchSet children
      prev last = r) :
    (matchSet = [] → r = (false, 0, [], prev)) ∧
    (matchSet ≠ [] →
      (freshEvidence r.2.2.1 → r.1 = true ∧ r.2.1 = now) ∧
      (¬freshEvidence r.2.2.1 →
        r.2.1 = last ∧
        (if last ≠ 0 ∧ now - last ≤ config.active_grace_seconds then
          r.1 = true ∧ "grace" ∈ r.2.2.1
         else r.1 = false))) := by
  subst hr
  constructor
  · intro hempty
    subst hempty
    rfl
  · intro hne
    unfold _process_active
    rw [if_neg (by simpa [List.isEmpty_iff] using hne)]
    dsimp only
    exact activityResult_spec _ _ _ now last config.active_grace_seconds

/-- Claim C6 (confirmed).  Activity hysteresis of one poll tick: an empty
MatchSet resets `last_active_at` and reports `(running = false, active =
false)`; fresh evidence (`cpu`, `child_cpu` or `net`) sets
`last_active_at := now` and reports active; without fresh evidence the
tick reports active with `grace` evidence exactly when `last_active_at`
is non-zero and `now - last_active_at ≤ grace_seconds`, and inactive
otherwise. -/
theorem poll_hysteresis (config : ProcessConfig) (watch : String → Bool)
    (platformSystem : String) (processes : List ProcessInfo) (fallbackRunning : Bool)
    (netTotals : String → Option (ℤ × ℤ)) (now : ℚ) (st : GateState)
    (hplat : platformSystem = "Darwin" ∨ platformSystem = "Linux")
    (res : (Bool × Bool × List String) × GateState)
    (hres : poll config watch platformSystem (.ok processes) fallbackRunning netTotals
      now st = res) :
    (_matching_processes processes config watch = [] →
      res = ((false, false, []), ⟨0, []⟩)) ∧
    (_matching_processes processes config watch ≠ [] →
      res.1.1 = true ∧
      (freshEvidence res.1.2.2 → res.1.2.1 = true ∧ res.2.last_active_at = now) ∧
      (¬freshEvidence res.1.2.2 →
        res.2.last_active_at = st.last_active_at ∧
        (if st.last_active_at ≠ 0 ∧
            now - st.last_active_at ≤ config.active_grace_seconds then
          res.1.2.1 = true ∧ "grace" ∈ res.1.2.2
         else res.1.2.1 = false))) := by
  subst hres
  have hplatb : (!(platformSystem == "Darwin" || platformSystem == "Linux")) = false := by
    rcases hplat with rfl | rfl <;> rfl
  constructor
  · intro hempty
    unfold poll
    simp only [hplatb, Bool.false_eq_true, if_false]
    rw [hempty]
    rfl
  · intro hne
    unfold poll
    simp only [hplatb, Bool.false_eq_true, if_false]
    rw [if_neg (by simpa [List.isEmpty_iff] using hne)]
    have hps := (process_active_spec config watch platformSystem netTotals now
      (_matching_processes processes config watch) (_build_children_map processes)
      (st.prev_net_totals.filter fun e =>
        ((_matching_processes processes config watch).map fun p => p.pid).contains e.1)
      st.last_active_at _ rfl).2 hne
    exact ⟨rfl, hps.1, hps.2⟩

/-- Claim C9 (confirmed).  When process enumeration raises, `poll` recovers:
it returns `(running = false, active = false)` for the tick (with
`ps_error` evidence) instead of propagating the exception, leaving the
gate state untouched. -/
theorem poll_scan_error (config : ProcessConfig) (watch : String → Bool)
    (platformSystem : String) (err : String) (fallbackRunning : Bool)
    (netTotals : String → Option (ℤ × ℤ)) (now : ℚ) (st : GateState)
    (hplat : platformSystem = "Darwin" ∨ platformSystem = "Linux") :
    poll config watch platformSystem (.error err) fallbackRunning netTotals now st =
      ((false, false, ["ps_error"]), st) := by
  rcases hplat with rfl | rfl <;> rfl

/-- Witness for C9 at a concrete configuration and state. -/
theorem poll_scan_error_witness :
    poll DEFAULT_PROCESS_CONFIG (fun _ => false) "Darwin" (.error "boom") false
        (fun _ => none) 0 ⟨0, []⟩ =
      ((false, false, ["ps_error"]), (⟨0, []⟩ : GateState)) :=
  poll_scan_error DEFAULT_PROCESS_CONFIG (fun _ => false) "Darwin" "boom" false
    (fun _ => none) 0 ⟨0, []⟩ (Or.inl rfl)

/-- Witness for C6: with `last_active_at = 8`, `grace_seconds = 4` and no
fresh evidence, the tick at `now = 10` is reported active with `grace`
evidence and an unchanged `last_active_at`. -/
theorem poll_hysteresis_witness :
    (((true, true, ["grace"]), (⟨8, []⟩ : GateState)) :
        (Bool × Bool × List String) × GateState).1.1 = true ∧
    (freshEvidence ["grace"] → true = true ∧ (8 : ℚ) = 10) ∧
    (¬freshEvidence ["grace"] →
      (8 : ℚ) = (8 : ℚ) ∧
      (if (8 : ℚ) ≠ 0 ∧ (10 : ℚ) - 8 ≤ graceExampleConfig.active_grace_seconds then
        true = true ∧ "grace" ∈ (["grace"] : List String)
       else true = false)) := by
  have h := (poll_hysteresis graceExampleConfig (fun _ => true) "Darwin" [graceExampleProc]
    false (fun _ => none) 10 ⟨8, []⟩ (Or.inl rfl) ((true, true, ["grace"]), ⟨8, []⟩)
    (by norm_num +decide [poll, graceExampleConfig, DEFAULT_PROCESS_CONFIG, graceExampleProc,
      _matching_processes, _has_tty, _process_active, _build_children_map, addChild,
      evidenceList, activityResult])).2 (by decide)
  exact h

/-- The second half of the C6 example: at `now = 13` the grace window has
lapsed (`13 - 8 > 4`) and the tick is reported inactive. -/
example : poll graceExampleConfig (fun _ => true) "Darwin" (.ok [graceExampleProc]) false
    (fun _ => none) 13 ⟨8, []⟩ = ((true, false, []), ⟨8, []⟩) := by
  norm_num +decide [poll, graceExampleConfig, DEFAULT_PROCESS_CONFIG, graceExampleProc,
    _matching_processes, _has_tty, _process_active, _build_children_map, addChild,
    evidenceList, activityResult]

end Xgate
